import Mathlib

/-!
Shallow embedding of the scheduling engine of `lib/scheduling/engine.ts`
(types from `types/person.ts`) of the SpiZwiBu-Generator repository.

Modelling conventions:
* ISO calendar dates (`YYYY-MM-DD` strings in the source) are modelled as
  natural numbers counting days since 1970-01-01 (which was a Thursday), so
  `getDay()` of day `d` is `(d + 4) % 7` and `0` denotes Sunday.  Adding one
  day is `d + 1`; the UTC-midnight timestamps compared by the source make the
  day number a faithful representation of both the `Date` value and the ISO
  string derived from it.
* `Math.random()` is modelled by an explicit stream of natural numbers
  (`RNG`): the source's draw `Math.floor(Math.random() * n)` becomes
  `r % n` for the next stream element `r`, which reaches exactly the values
  `0 … n-1`.  Theorems quantify over the whole stream, covering every
  possible sequence of random draws.
* `Array.prototype.sort` with the comparator that returns `a.score - b.score`
  and a random sign on ties is modelled as a random shuffle followed by a
  stable sort on the score (realized by insertion sort, which also reduces
  inside the kernel): the result is some score-sorted permutation with ties
  in random order, which is the set of outcomes of the source's randomized
  comparator.
* The fairness score uses `Math.exp` and is therefore modelled in `ℝ`; every
  other part of the engine is computable.  The retry loop's comparison
  `fairnessScore > 0.8` is modelled with a classical `if` over that real
  proposition.
* The `throw` inside `getDayName` is modelled by an `Except`-valued variant
  `generateTimeSlotsE`; the engine uses its successful projection
  `generateTimeSlots`, and the two are proved to agree (no error is ever
  produced).
-/

/-- The six working weekday labels of the source (`Sunday` is excluded). -/
inductive DayName where
  | Monday | Tuesday | Wednesday | Thursday | Friday | Saturday
deriving DecidableEq, Repr

/-- The two shift types (`'Morning' | 'Evening'`). -/
inductive ShiftTime where
  | Morning | Evening
deriving DecidableEq, Repr

/-- `Person` of `types/person.ts`; dates are day numbers (see header). -/
structure Person where
  id : String
  name : String
  excludeMorningShifts : Bool
  excludeEveningShifts : Bool
  availableDates : Option (List Nat) := none
  unavailableDates : Option (List Nat) := none
deriving DecidableEq, Repr

/-- `Station` of `types/person.ts`. -/
structure Station where
  id : String
  name : String
  active : Bool
deriving DecidableEq, Repr

/-- `Assignment` of `types/person.ts`. -/
structure Assignment where
  dayOfWeek : DayName
  timeSlot : ShiftTime
  stationId : String
  personId : String
  date : Nat
deriving DecidableEq, Repr

/-- `ScheduleConfig` of `types/person.ts`; dates are day numbers. -/
structure ScheduleConfig where
  startDate : Nat
  endDate : Nat
  includeStartMorning : Bool
  includeEndEvening : Bool
deriving DecidableEq, Repr

/-- `TimeSlot` of `lib/scheduling/engine.ts`. -/
structure TimeSlot where
  day : DayName
  time : ShiftTime
  dayIndex : Nat
  timeIndex : Nat
  date : Nat
  weekNumber : Nat
deriving DecidableEq, Repr

/-- `ScheduleConstraints` of `lib/scheduling/engine.ts`. -/
structure ScheduleConstraints where
  persons : List Person
  stations : List Station
  scheduleConfig : ScheduleConfig
deriving DecidableEq, Repr

/-- The stream of random draws standing in for `Math.random()`. -/
abbrev RNG := List Nat

/-- Consume one random draw (`0` once the modelled stream is exhausted). -/
def nextRand : RNG → Nat × RNG
  | [] => (0, [])
  | x :: xs => (x, xs)

/-- Exchange the entries at positions `i` and `j` (identity when either
index is out of range), the `[shuffled[i], shuffled[j]] = …` swap of
`shuffleArray`. -/
def swapIdx {α : Type} (l : List α) (i j : Nat) : List α :=
  match l.get? i, l.get? j with
  | some a, some b => (l.set i b).set j a
  | _, _ => l

/-- The Fisher–Yates loop of `shuffleArray`: at loop index `i+1` draw `r`
and swap positions `i+1` and `r % (i+2)`. -/
def shuffleAux {α : Type} (g : RNG) (l : List α) : Nat → List α × RNG
  | 0 => (l, g)
  | i + 1 =>
    let (r, g') := nextRand g
    shuffleAux g' (swapIdx l (i + 1) (r % (i + 2))) i

/-- `shuffleArray` of `lib/scheduling/engine.ts`. -/
def shuffleArray {α : Type} (l : List α) (g : RNG) : List α × RNG :=
  shuffleAux g l (l.length - 1)

/-- Day-of-week residue of day number `d`: `0` is Sunday (1970-01-01, day
`0`, was a Thursday, residue `4`). -/
def getDay (d : Nat) : Nat := (d + 4) % 7

/-- `getDayName` of `generateTimeSlots`, including its `throw` for Sunday,
modelled as `Except`. -/
def getDayName (d : Nat) : Except String DayName :=
  match getDay d with
  | 1 => .ok .Monday
  | 2 => .ok .Tuesday
  | 3 => .ok .Wednesday
  | 4 => .ok .Thursday
  | 5 => .ok .Friday
  | 6 => .ok .Saturday
  | _ => .error "Sunday is not supported in the schedule"

/-- The `dayIndex` computation (`Monday = 0`, …, `Saturday = 5`). -/
def dayIndexOf (d : Nat) : Nat := if getDay d == 1 then 0 else getDay d - 1

/-- Build the slot pushed for day `d` and shift `t`. -/
def mkTimeSlot (c : ScheduleConfig) (d : Nat) (dn : DayName) (t : ShiftTime) : TimeSlot :=
  { day := dn
    time := t
    dayIndex := dayIndexOf d
    timeIndex := if t == ShiftTime.Morning then 0 else 1
    date := d
    weekNumber := (d - c.startDate) / 7 }

/-- The two pushes of one loop iteration of `generateTimeSlots`: the morning
slot unless excluded on the start date, the evening slot unless excluded on
the end date. -/
def daySlots (c : ScheduleConfig) (d : Nat) (dn : DayName) : List TimeSlot :=
  (if d == c.startDate && !c.includeStartMorning then []
   else [mkTimeSlot c d dn ShiftTime.Morning]) ++
  (if d == c.endDate && !c.includeEndEvening then []
   else [mkTimeSlot c d dn ShiftTime.Evening])

/-- The date-iteration loop of `generateTimeSlots`, starting at day `d` with
`fuel` days left up to and including the end date; Sundays are skipped
before the day name is computed. -/
def genSlotsAux (c : ScheduleConfig) (d : Nat) : Nat → Except String (List TimeSlot)
  | 0 => .ok []
  | fuel + 1 =>
    if getDay d == 0 then genSlotsAux c (d + 1) fuel
    else
      match getDayName d with
      | .error e => .error e
      | .ok dn =>
        match genSlotsAux c (d + 1) fuel with
        | .error e => .error e
        | .ok rest => .ok (daySlots c d dn ++ rest)

/-- `generateTimeSlots` of `lib/scheduling/engine.ts`, with the `throw`
surfaced as `Except`. -/
def generateTimeSlotsE (c : ScheduleConfig) : Except String (List TimeSlot) :=
  genSlotsAux c c.startDate (c.endDate + 1 - c.startDate)

/-- The successful result of `generateTimeSlotsE` (proved to always exist:
the Sunday `throw` is unreachable). -/
def generateTimeSlots (c : ScheduleConfig) : List TimeSlot :=
  match generateTimeSlotsE c with
  | .ok l => l
  | .error _ => []

/-- Number of days in the inclusive range of `c` that are not Sundays, the
"non-rest-days" of the specification's slot-count formula. -/
def nonRestDays (c : ScheduleConfig) : Nat :=
  (List.range (c.endDate + 1 - c.startDate)).countP
    (fun k => getDay (c.startDate + k) != 0)

/-- The `(date, shift)` key of a slot. -/
def slotKey (s : TimeSlot) : Nat × ShiftTime := (s.date, s.time)



/-- `canPersonWorkSlot` of `lib/scheduling/engine.ts`: shift-type
exclusions, allow-list membership (when present and non-empty) and
deny-list non-membership (when present and non-empty). -/
def canPersonWorkSlot (person : Person) (timeSlot : TimeSlot) : Bool :=
  !(timeSlot.time == ShiftTime.Morning && person.excludeMorningShifts) &&
  !(timeSlot.time == ShiftTime.Evening && person.excludeEveningShifts) &&
  (match person.availableDates with
   | some l => l.isEmpty || l.contains timeSlot.date
   | none => true) &&
  (match person.unavailableDates with
   | some l => l.isEmpty || !(l.contains timeSlot.date)
   | none => true)

/-- `isPersonAvailableForSlot`: the person holds no assignment for this
exact day, shift and date yet. -/
def isPersonAvailableForSlot (assignments : List Assignment) (personId : String)
    (timeSlot : TimeSlot) : Bool :=
  !(assignments.any (fun a =>
      a.personId == personId && a.dayOfWeek == timeSlot.day &&
      a.timeSlot == timeSlot.time && a.date == timeSlot.date))

/-- `getPersonAssignmentCount`. -/
def getPersonAssignmentCount (assignments : List Assignment) (personId : String) : Nat :=
  (assignments.filter (fun a => a.personId == personId)).length

/-- `getPersonStationCount`. -/
def getPersonStationCount (assignments : List Assignment) (personId stationId : String) : Nat :=
  (assignments.filter (fun a => a.personId == personId && a.stationId == stationId)).length

/-- The score computed inside `findBestPersonsForSlot`:
`totalAssignments * 10 + stationAssignments * 5`, lower is better. -/
def personScore (assignments : List Assignment) (stationId personId : String) : Nat :=
  getPersonAssignmentCount assignments personId * 10 +
  getPersonStationCount assignments personId stationId * 5

/-- Comparison used to model the score-ascending sort. -/
def scoreRel (a b : Person × Nat) : Prop := a.2 ≤ b.2

instance : DecidableRel scoreRel := fun a b => Nat.decLe a.2 b.2

instance : IsTotal (Person × Nat) scoreRel := ⟨fun a b => Nat.le_total a.2 b.2⟩

instance : IsTrans (Person × Nat) scoreRel := ⟨fun _ _ _ hab hbc => Nat.le_trans hab hbc⟩

/-- The `availablePersons` filter of `findBestPersonsForSlot`: persons who
pass the static eligibility test and are not yet booked for this slot. -/
def eligibleFor (persons : List Person) (assignments : List Assignment)
    (timeSlot : TimeSlot) : List Person :=
  persons.filter (fun p =>
    canPersonWorkSlot p timeSlot && isPersonAvailableForSlot assignments p.id timeSlot)

/-- Placeholder pair for the (unreachable) head of an empty candidate
list. -/
def noCandidate : Person × Nat := (⟨"", "", false, false, none, none⟩, 0)

/-- `findBestPersonsForSlot` of `lib/scheduling/engine.ts`.  The source's
randomized tie-breaking comparator is modelled by a shuffle followed by a
stable sort on the score (see the file header); the stable sort is realized
by insertion sort, whose structural recursion also evaluates inside the
kernel. -/
def findBestPersonsForSlot (persons : List Person) (assignments : List Assignment)
    (timeSlot : TimeSlot) (stationId : String) (count : Nat) (g : RNG) :
    List Person × RNG :=
  let availablePersons := eligibleFor persons assignments timeSlot
  if availablePersons.isEmpty then ([], g)
  else
    let scoredPersons := availablePersons.map (fun p =>
      (p, personScore assignments stationId p.id))
    let pre := shuffleArray scoredPersons g
    let sorted := pre.1.insertionSort scoreRel
    let lowestScore := (sorted.headD noCandidate).2
    let bestCandidates := sorted.filter (fun sp => sp.2 == lowestScore)
    if count ≤ bestCandidates.length then
      let sb := shuffleArray bestCandidates pre.2
      ((sb.1.take count).map Prod.fst, sb.2)
    else
      let selected := bestCandidates.map Prod.fst
      let remaining := sorted.drop bestCandidates.length
      let sr := shuffleArray remaining pre.2
      (selected ++ (sr.1.take (count - selected.length)).map Prod.fst, sr.2)

/-- The eligible candidates of minimal score (used to state the selection
properties of `findBestPersonsForSlot`). -/
def bestGroup (persons : List Person) (assignments : List Assignment)
    (t : TimeSlot) (sid : String) : List Person :=
  (eligibleFor persons assignments t).filter (fun p =>
    (eligibleFor persons assignments t).all (fun q =>
      decide (personScore assignments sid p.id ≤ personScore assignments sid q.id)))

/-- Weekday label as printed into diagnostic strings. -/
def dayStr : DayName → String
  | .Monday => "Monday"
  | .Tuesday => "Tuesday"
  | .Wednesday => "Wednesday"
  | .Thursday => "Thursday"
  | .Friday => "Friday"
  | .Saturday => "Saturday"

/-- Shift label as printed into diagnostic strings. -/
def timeStr : ShiftTime → String
  | .Morning => "Morning"
  | .Evening => "Evening"

/-- Diagnostic recorded when only one person could be placed. -/
def onlyOneMsg (s : TimeSlot) (st : Station) : String :=
  "Nur eine Person verfügbar für " ++ dayStr s.day ++ " " ++ timeStr s.time ++
  " - " ++ st.name ++ " (2 benötigt)"

/-- Diagnostic recorded when nobody could be placed. -/
def nonePlacedMsg (s : TimeSlot) (st : Station) : String :=
  "Keine verfügbaren Personen für " ++ dayStr s.day ++ " " ++ timeStr s.time ++
  " - " ++ st.name ++ " (2 benötigt)"

/-- The assignment record pushed for one selected person. -/
def mkAssignment (s : TimeSlot) (st : Station) (p : Person) : Assignment :=
  { dayOfWeek := s.day
    timeSlot := s.time
    stationId := st.id
    personId := p.id
    date := s.date }

/-- Mutable state of one pass: accumulated assignments and diagnostics. -/
structure PassState where
  assignments : List Assignment
  errors : List String
deriving DecidableEq, Repr

/-- The inner station loop of `generateOptimizedAssignments`: select up to
two persons per station, record assignments and under-staffing
diagnostics. -/
def processStations (persons : List Person) (slot : TimeSlot) :
    List Station → PassState → RNG → PassState × RNG
  | [], st, g => (st, g)
  | s :: rest, st, g =>
    let fb := findBestPersonsForSlot persons st.assignments slot s.id 2 g
    let ps := fb.1
    let st' :=
      if 2 ≤ ps.length then
        { st with assignments := st.assignments ++ ps.map (mkAssignment slot s) }
      else if ps.length == 1 then
        { assignments := st.assignments ++ ps.map (mkAssignment slot s)
          errors := st.errors ++ [onlyOneMsg slot s] }
      else
        { st with errors := st.errors ++ [nonePlacedMsg slot s] }
    processStations persons slot rest st' fb.2

/-- The slot loop of one pass: stations are re-shuffled for every slot. -/
def processSlots (persons : List Person) (stations : List Station) :
    List TimeSlot → PassState → RNG → PassState × RNG
  | [], st, g => (st, g)
  | s :: rest, st, g =>
    let sh := shuffleArray stations g
    let pr := processStations persons s sh.1 st sh.2
    processSlots persons stations rest pr.1 pr.2

/-- The week regrouping of one pass: slots are shuffled, then grouped by
week number; JavaScript object iteration visits the integer week keys in
ascending order, while slots inside one week keep their shuffled order. -/
def weekOrder (l : List TimeSlot) : List TimeSlot :=
  (((l.map TimeSlot.weekNumber).dedup).insertionSort (· ≤ ·)).flatMap
    (fun w => l.filter (fun s => s.weekNumber == w))

/-- One full pass of `generateOptimizedAssignments` over every slot and
station, starting from an empty assignment list. -/
def runPass (persons : List Person) (stations : List Station)
    (slots : List TimeSlot) (g : RNG) : PassState × RNG :=
  let sh := shuffleArray slots g
  processSlots persons stations (weekOrder sh.1) ⟨[], []⟩ sh.2

/-- Per-person map of `calculateFairnessMetrics` (keys are the distinct
person ids, each with its assignment count). -/
def assignmentsPerPersonL (persons : List Person) (assignments : List Assignment) :
    List (String × Nat) :=
  ((persons.map Person.id).dedup).map (fun i =>
    (i, (assignments.filter (fun a => a.personId == i)).length))

/-- Per-station map of `calculateFairnessMetrics`. -/
def assignmentsPerStationL (stations : List Station) (assignments : List Assignment) :
    List (String × Nat) :=
  ((stations.map Station.id).dedup).map (fun i =>
    (i, (assignments.filter (fun a => a.stationId == i)).length))

/-- The per-person assignment counts (`Object.values(assignmentsPerPerson)`). -/
def assignmentCountsOf (persons : List Person) (assignments : List Assignment) : List Nat :=
  (assignmentsPerPersonL persons assignments).map Prod.snd

/-- `FairnessMetrics` of `lib/scheduling/engine.ts`; the score lives in `ℝ`
because the source computes it with `Math.exp`. -/
structure FairnessMetrics where
  assignmentsPerPerson : List (String × Nat)
  assignmentsPerStation : List (String × Nat)
  minAssignments : Nat
  maxAssignments : Nat
  fairnessScore : ℝ

/-- The fairness score of `calculateFairnessMetrics`: `1` when there are no
counts or all counts are zero, `1` when the spread is zero, otherwise
`clamp(exp(-variance/ideal), 0, 1)`. -/
noncomputable def fairnessScore (persons : List Person)
    (assignments : List Assignment) : ℝ :=
  let counts := assignmentCountsOf persons assignments
  if counts.isEmpty || counts.all (· == 0) then 1
  else
    let mn := counts.min?.getD 0
    let mx := counts.max?.getD 0
    if mx - mn == 0 then 1
    else
      let total := assignments.length
      let ideal : ℝ := (total : ℝ) / (persons.length : ℝ)
      let variance : ℝ :=
        ((counts.map (fun cnt => ((cnt : ℝ) - ideal) * ((cnt : ℝ) - ideal))).sum)
          / (counts.length : ℝ)
      max 0 (min 1 (Real.exp (-variance / ideal)))

/-- `calculateFairnessMetrics` of `lib/scheduling/engine.ts`. -/
noncomputable def calculateFairnessMetrics (persons : List Person)
    (stations : List Station) (assignments : List Assignment) : FairnessMetrics :=
  let app := assignmentsPerPersonL persons assignments
  let aps := assignmentsPerStationL stations assignments
  let counts := assignmentCountsOf persons assignments
  if counts.isEmpty || counts.all (· == 0) then
    ⟨app, aps, 0, 0, fairnessScore persons assignments⟩
  else
    ⟨app, aps, counts.min?.getD 0, counts.max?.getD 0, fairnessScore persons assignments⟩

/-- The retry loop's stopping test `fairnessScore > 0.8`. -/
def goodFairness (persons : List Person) (assignments : List Assignment) : Prop :=
  (0.8 : ℝ) < fairnessScore persons assignments

open Classical in
/-- `generateOptimizedAssignments`: up to three passes; the pass whose
fairness first exceeds `0.8` is returned with its own diagnostics, and when
no pass does, the last pass's assignments are returned with the FIRST
pass's diagnostics (the source splices `errors` only at iteration 0 or when
the fairness test succeeds).  Running the later passes eagerly is
unobservable since a pass has no side effect beyond its result. -/
noncomputable def generateOptimizedAssignments (persons : List Person)
    (stations : List Station) (slots : List TimeSlot) (g : RNG) :
    List Assignment × List String :=
  let r0 := runPass persons stations slots g
  let r1 := runPass persons stations slots r0.2
  let r2 := runPass persons stations slots r1.2
  if goodFairness persons r0.1.assignments then (r0.1.assignments, r0.1.errors)
  else if goodFairness persons r1.1.assignments then (r1.1.assignments, r1.1.errors)
  else if goodFairness persons r2.1.assignments then (r2.1.assignments, r2.1.errors)
  else (r2.1.assignments, r0.1.errors)

/-- `ScheduleResult` of `lib/scheduling/engine.ts` (`errors` is the
`diagnostics` list of the specification). -/
structure ScheduleResult where
  assignments : List Assignment
  fairnessMetrics : FairnessMetrics
  success : Bool
  errors : List String

/-- Validation diagnostic for an empty person list. -/
def noPersonsMsg : String := "Keine Personen verfügbar"

/-- Validation diagnostic for an empty active-station list. -/
def noStationsMsg : String := "Keine aktiven Stationen konfiguriert"

/-- Validation diagnostic for exceeded capacity. -/
def capacityMsg (needed maxPossible : Nat) : String :=
  "Nicht genügend Personen verfügbar. Benötigt: " ++ toString needed ++
  " Zuweisungen (2 pro Station), Maximum möglich: " ++ toString maxPossible

/-- The input-validation diagnostics collected by `generateSchedule` before
any assignment is attempted: missing persons, missing active stations, and
the capacity check `totalSlotsNeeded > maxPossibleAssignments` with
`totalSlotsNeeded = slots * stations * 2` and
`maxPossibleAssignments = persons * slots`. -/
def validationErrors (cs : ScheduleConstraints) : List String :=
  (if cs.persons.length == 0 then [noPersonsMsg] else []) ++
  (if (cs.stations.filter (fun s => s.active)).length == 0 then [noStationsMsg] else []) ++
  (if cs.persons.length * (generateTimeSlots cs.scheduleConfig).length <
      (generateTimeSlots cs.scheduleConfig).length *
        (cs.stations.filter (fun s => s.active)).length * 2
   then [capacityMsg ((generateTimeSlots cs.scheduleConfig).length *
          (cs.stations.filter (fun s => s.active)).length * 2)
          (cs.persons.length * (generateTimeSlots cs.scheduleConfig).length)]
   else [])

/-- `generateSchedule` of `lib/scheduling/engine.ts`. -/
noncomputable def generateSchedule (cs : ScheduleConstraints) (g : RNG) : ScheduleResult :=
  let persons := cs.persons
  let stations := cs.stations.filter (fun s => s.active)
  let timeSlots := generateTimeSlots cs.scheduleConfig
  let errs := validationErrors cs
  if errs.isEmpty then
    let r := generateOptimizedAssignments persons stations timeSlots g
    { assignments := r.1
      fairnessMetrics := calculateFairnessMetrics persons stations r.1
      success := r.2.isEmpty
      errors := r.2 }
  else
    { assignments := []
      fairnessMetrics := calculateFairnessMetrics persons stations []
      success := false
      errors := errs }


/-- Number of assignments recorded for the `(date, shift)` of slot `s` at
station id `sid`. -/
def slotStationCount (assignments : List Assignment) (s : TimeSlot) (sid : String) : Nat :=
  (assignments.filter (fun a =>
    a.date == s.date && a.timeSlot == s.time && a.stationId == sid)).length

/-- The static candidate pool of a slot: persons passing
`canPersonWorkSlot` (individual availability, ignoring current
bookings). -/
def slotPool (persons : List Person) (s : TimeSlot) : List Person :=
  persons.filter (fun p => canPersonWorkSlot p s)

/-- The booking test of `isPersonAvailableForSlot` without the person part:
does assignment `a` collide with slot `s`? -/
def keyMatches (a : Assignment) (s : TimeSlot) : Bool :=
  a.dayOfWeek == s.day && a.timeSlot == s.time && a.date == s.date

/-- Ids already booked on slot `s` in the assignment list `A`. -/
def bookedIds (A : List Assignment) (s : TimeSlot) : List String :=
  (A.filter (fun a => keyMatches a s)).map Assignment.personId

/-- Two assignment records do not double-book one person on one
`(date, shift)` pair. -/
def noDouble (a b : Assignment) : Prop :=
  ¬(a.personId = b.personId ∧ a.date = b.date ∧ a.timeSlot = b.timeSlot)

/-- Sample person used in concrete witnesses and counterexamples. -/
def pA : Person := ⟨"A", "Anna", false, false, none, none⟩

/-- Sample person. -/
def pB : Person := ⟨"B", "Ben", false, false, none, none⟩

/-- Sample person. -/
def pC : Person := ⟨"C", "Cleo", false, false, none, none⟩

/-- Sample person. -/
def pD : Person := ⟨"D", "Dana", false, false, none, none⟩

/-- Sample active station. -/
def stS1 : Station := ⟨"st1", "Pool", true⟩

/-- Two active stations sharing one id (an input the engine accepts). -/
def stDup1 : Station := ⟨"s", "Pool", true⟩

/-- Second station with the duplicated id. -/
def stDup2 : Station := ⟨"s", "Spieletheke", true⟩

/-- Monday-only configuration producing exactly one (morning) slot. -/
def cfgOneSlot : ScheduleConfig := ⟨4, 4, true, false⟩

/-- Monday-only configuration producing no slot at all. -/
def cfgNoSlots : ScheduleConfig := ⟨4, 4, false, false⟩

/-- Monday-to-Saturday configuration (first morning excluded). -/
def cfgWeek : ScheduleConfig := ⟨4, 9, false, true⟩

/-- The Monday-morning slot of the sample configurations. -/
def slotMon : TimeSlot := ⟨.Monday, .Morning, 0, 0, 4, 0⟩

/-- Pre-existing assignments giving persons `B` and `C` nonzero scores. -/
def aPre : List Assignment :=
  [⟨.Tuesday, .Morning, "other", "B", 5⟩,
   ⟨.Tuesday, .Morning, "other", "C", 5⟩,
   ⟨.Tuesday, .Evening, "other", "C", 5⟩]

/-- The pass output for four persons and the two stations sharing id `"s"`
on the one-slot configuration with the all-zero draw stream. -/
def a0Dup : List Assignment :=
  [⟨.Monday, .Morning, "s", "C", 4⟩,
   ⟨.Monday, .Morning, "s", "D", 4⟩,
   ⟨.Monday, .Morning, "s", "A", 4⟩,
   ⟨.Monday, .Morning, "s", "B", 4⟩]

section TimeSlotLemmas

/-- On a non-Sunday day the day-name lookup succeeds. -/
theorem getDayName_ok (d : Nat) (h : getDay d ≠ 0) : ∃ dn, getDayName d = .ok dn := by
  have h7 : getDay d < 7 := Nat.mod_lt _ (by norm_num)
  have hd : getDay d = 1 ∨ getDay d = 2 ∨ getDay d = 3 ∨ getDay d = 4 ∨
      getDay d = 5 ∨ getDay d = 6 := by omega
  rcases hd with h1 | h1 | h1 | h1 | h1 | h1
  · exact ⟨.Monday, by simp [getDayName, h1]⟩
  · exact ⟨.Tuesday, by simp [getDayName, h1]⟩
  · exact ⟨.Wednesday, by simp [getDayName, h1]⟩
  · exact ⟨.Thursday, by simp [getDayName, h1]⟩
  · exact ⟨.Friday, by simp [getDayName, h1]⟩
  · exact ⟨.Saturday, by simp [getDayName, h1]⟩

/-- The slot generator never reaches the Sunday error. -/
theorem genSlotsAux_ok (c : ScheduleConfig) :
    ∀ fuel d, ∃ l, genSlotsAux c d fuel = .ok l := by
  intro fuel
  induction fuel with
  | zero => intro d; exact ⟨[], rfl⟩
  | succ n ih =>
    intro d
    obtain ⟨rest, hrest⟩ := ih (d + 1)
    by_cases h : getDay d == 0
    · exact ⟨rest, by simp only [genSlotsAux, h, if_true, hrest]⟩
    · have hne : getDay d ≠ 0 := by simpa using h
      obtain ⟨dn, hdn⟩ := getDayName_ok d hne
      refine ⟨daySlots c d dn ++ rest, ?_⟩
      simp only [genSlotsAux, h, if_false, hdn, hrest, Bool.false_eq_true]

theorem generateTimeSlotsE_ok (c : ScheduleConfig) :
    generateTimeSlotsE c = .ok (generateTimeSlots c) := by
  obtain ⟨l, hl⟩ := genSlotsAux_ok c (c.endDate + 1 - c.startDate) c.startDate
  have h : generateTimeSlotsE c = .ok l := hl
  simp [generateTimeSlots, h]

/-- Unfolding of a successful non-Sunday step of the generator loop. -/
theorem genSlotsAux_succ_ok (c : ScheduleConfig) (d fuel : Nat) (l : List TimeSlot)
    (h : genSlotsAux c d (fuel + 1) = .ok l) :
    (getDay d = 0 ∧ genSlotsAux c (d + 1) fuel = .ok l) ∨
    (getDay d ≠ 0 ∧ ∃ dn rest, getDayName d = .ok dn ∧
      genSlotsAux c (d + 1) fuel = .ok rest ∧ l = daySlots c d dn ++ rest) := by
  by_cases h0 : getDay d == 0
  · left
    refine ⟨by simpa using h0, ?_⟩
    simpa only [genSlotsAux, h0, if_true] using h
  · right
    have hne : getDay d ≠ 0 := by simpa using h0
    refine ⟨hne, ?_⟩
    simp only [genSlotsAux, h0, Bool.false_eq_true, if_false] at h
    obtain ⟨dn, hdn⟩ := getDayName_ok d hne
    rw [hdn] at h
    obtain ⟨rest, hrest⟩ := genSlotsAux_ok c fuel (d + 1)
    rw [hrest] at h
    exact ⟨dn, rest, hdn, hrest, by simpa using h.symm⟩

/-- Every generated slot lies in the scanned window, is not on a Sunday, and
records its own date together with the matching shift data. -/
theorem genSlotsAux_mem (c : ScheduleConfig) :
    ∀ fuel d l, genSlotsAux c d fuel = .ok l →
    ∀ s ∈ l, d ≤ s.date ∧ s.date < d + fuel ∧ getDay s.date ≠ 0 := by
  intro fuel
  induction fuel with
  | zero => intro d l h s hs; cases h; simp at hs
  | succ n ih =>
    intro d l h s hs
    rcases genSlotsAux_succ_ok c d n l h with ⟨h0, hrec⟩ | ⟨h0, dn, rest, _, hrec, hl⟩
    · have := ih (d + 1) l hrec s hs
      omega
    · subst hl
      rcases List.mem_append.1 hs with hmem | hmem
      · have hdate : s.date = d := by
          simp only [daySlots] at hmem
          rcases List.mem_append.1 hmem with hm | hm <;>
            [skip; skip] <;> split at hm <;> simp_all [mkTimeSlot]
        refine ⟨by omega, by omega, by rw [hdate]; exact h0⟩
      · have := ih (d + 1) rest hrec s hmem
        omega

/-- The `(date, shift)` keys of the generated slots are pairwise distinct. -/
theorem genSlotsAux_keys_nodup (c : ScheduleConfig) :
    ∀ fuel d l, genSlotsAux c d fuel = .ok l → (l.map slotKey).Nodup := by
  intro fuel
  induction fuel with
  | zero => intro d l h; cases h; simp
  | succ n ih =>
    intro d l h
    rcases genSlotsAux_succ_ok c d n l h with ⟨_, hrec⟩ | ⟨_, dn, rest, _, hrec, hl⟩
    · exact ih (d + 1) l hrec
    · subst hl
      have hrest : (rest.map slotKey).Nodup := ih (d + 1) rest hrec
      have hdates : ∀ s ∈ rest, d + 1 ≤ s.date :=
        fun s hs => (genSlotsAux_mem c n (d + 1) rest hrec s hs).1
      have hday : ∀ s ∈ daySlots c d dn, s.date = d := by
        intro s hs
        simp only [daySlots] at hs
        rcases List.mem_append.1 hs with hm | hm <;> split at hm <;> simp_all [mkTimeSlot]
      rw [List.map_append, List.nodup_append]
      refine ⟨?_, hrest, ?_⟩
      · simp only [daySlots]
        split <;> split <;> simp [mkTimeSlot, slotKey]
      · intro k hk1 hk2
        rcases List.mem_map.1 hk1 with ⟨s1, hs1, rfl⟩
        rcases List.mem_map.1 hk2 with ⟨s2, hs2, hkey⟩
        have h1 : s1.date = d := hday s1 hs1
        have h2 : d + 1 ≤ s2.date := hdates s2 hs2
        have : s2.date = s1.date := congrArg Prod.fst hkey
        omega

theorem generateTimeSlots_keys_nodup (c : ScheduleConfig) :
    ((generateTimeSlots c).map slotKey).Nodup :=
  genSlotsAux_keys_nodup c _ _ _ (generateTimeSlotsE_ok c)

theorem generateTimeSlots_no_sunday (c : ScheduleConfig) :
    ∀ s ∈ generateTimeSlots c, getDay s.date ≠ 0 :=
  fun s hs => (genSlotsAux_mem c _ _ _ (generateTimeSlotsE_ok c) s hs).2.2

/-- Count bookkeeping for the generator: the number of produced slots plus
the two boundary omissions (which only happen when the boundary day is
actually scanned and not a Sunday) is twice the number of non-Sunday days. -/
theorem genSlotsAux_length (c : ScheduleConfig) :
    ∀ fuel d l, genSlotsAux c d fuel = .ok l →
    l.length
      + (if d ≤ c.startDate ∧ c.startDate < d + fuel ∧ getDay c.startDate ≠ 0 ∧
            c.includeStartMorning = false then 1 else 0)
      + (if d ≤ c.endDate ∧ c.endDate < d + fuel ∧ getDay c.endDate ≠ 0 ∧
            c.includeEndEvening = false then 1 else 0)
      = 2 * (List.range fuel).countP (fun k => getDay (d + k) != 0) := by
  intro fuel
  induction fuel with
  | zero =>
    intro d l h
    cases h
    rw [if_neg (by rintro ⟨h1, h2, -, -⟩; omega), if_neg (by rintro ⟨h1, h2, -, -⟩; omega)]
    simp
  | succ n ih =>
    intro d l h
    have hcount : (List.range (n + 1)).countP (fun k => getDay (d + k) != 0)
        = (if getDay d ≠ 0 then 1 else 0)
          + (List.range n).countP (fun k => getDay (d + 1 + k) != 0) := by
      rw [List.range_succ_eq_map, List.countP_cons, List.countP_map]
      have hcg : List.countP ((fun k => getDay (d + k) != 0) ∘ Nat.succ) (List.range n)
          = List.countP (fun k => getDay (d + 1 + k) != 0) (List.range n) := by
        apply List.countP_congr
        intro k _
        simp only [Function.comp, Nat.succ_eq_add_one]
        constructor <;> intro hb <;> [skip; skip] <;>
          simpa [show d + (k + 1) = d + 1 + k by omega] using hb
      rw [hcg]
      by_cases hd : getDay d = 0
      · rw [if_neg (by simp [Nat.add_zero, hd]), if_neg (by omega)]
        omega
      · rw [if_pos (by simp [Nat.add_zero, hd]), if_pos hd]
        omega
    rcases genSlotsAux_succ_ok c d n l h with ⟨h0, hrec⟩ | ⟨h0, dn, rest, _, hrec, hl⟩
    · have hrest := ih (d + 1) l hrec
      have ha : (if getDay d ≠ 0 then 1 else 0) = 0 := by simp [h0]
      have e1 : (if d ≤ c.startDate ∧ c.startDate < d + (n + 1) ∧ getDay c.startDate ≠ 0 ∧
            c.includeStartMorning = false then 1 else 0)
          = (if d + 1 ≤ c.startDate ∧ c.startDate < d + 1 + n ∧ getDay c.startDate ≠ 0 ∧
            c.includeStartMorning = false then 1 else 0) := by
        refine if_congr ⟨?_, ?_⟩ rfl rfl
        · rintro ⟨h1, h2, h3, h4⟩
          have hne : d ≠ c.startDate := fun hee => h3 (hee ▸ h0)
          exact ⟨by omega, by omega, h3, h4⟩
        · rintro ⟨h1, h2, h3, h4⟩
          exact ⟨by omega, by omega, h3, h4⟩
      have e2 : (if d ≤ c.endDate ∧ c.endDate < d + (n + 1) ∧ getDay c.endDate ≠ 0 ∧
            c.includeEndEvening = false then 1 else 0)
          = (if d + 1 ≤ c.endDate ∧ c.endDate < d + 1 + n ∧ getDay c.endDate ≠ 0 ∧
            c.includeEndEvening = false then 1 else 0) := by
        refine if_congr ⟨?_, ?_⟩ rfl rfl
        · rintro ⟨h1, h2, h3, h4⟩
          have hne : d ≠ c.endDate := fun hee => h3 (hee ▸ h0)
          exact ⟨by omega, by omega, h3, h4⟩
        · rintro ⟨h1, h2, h3, h4⟩
          exact ⟨by omega, by omega, h3, h4⟩
      rw [hcount, ha, e1, e2]
      omega
    · subst hl
      have hrest := ih (d + 1) rest hrec
      have hlen1 : (if (d == c.startDate && !c.includeStartMorning) = true
            then ([] : List TimeSlot) else [mkTimeSlot c d dn ShiftTime.Morning]).length
          = (if d = c.startDate ∧ c.includeStartMorning = false then 0 else 1) := by
        by_cases hc : d = c.startDate ∧ c.includeStartMorning = false
        · rw [if_pos (by simp [hc.1, hc.2]), if_pos hc]
          rfl
        · rw [if_neg ?_, if_neg hc]
          · rfl
          · intro hb
            exact hc (by simpa using hb)
      have hlen2 : (if (d == c.endDate && !c.includeEndEvening) = true
            then ([] : List TimeSlot) else [mkTimeSlot c d dn ShiftTime.Evening]).length
          = (if d = c.endDate ∧ c.includeEndEvening = false then 0 else 1) := by
        by_cases hc : d = c.endDate ∧ c.includeEndEvening = false
        · rw [if_pos (by simp [hc.1, hc.2]), if_pos hc]
          rfl
        · rw [if_neg ?_, if_neg hc]
          · rfl
          · intro hb
            exact hc (by simpa using hb)
      have hS : (if d = c.startDate ∧ c.includeStartMorning = false then 0 else 1)
            + (if d ≤ c.startDate ∧ c.startDate < d + (n + 1) ∧ getDay c.startDate ≠ 0 ∧
                c.includeStartMorning = false then 1 else 0)
          = 1 + (if d + 1 ≤ c.startDate ∧ c.startDate < d + 1 + n ∧ getDay c.startDate ≠ 0 ∧
                c.includeStartMorning = false then 1 else 0) := by
        by_cases hd : d = c.startDate
        · have hA' : (if d + 1 ≤ c.startDate ∧ c.startDate < d + 1 + n ∧ getDay c.startDate ≠ 0 ∧
              c.includeStartMorning = false then 1 else 0) = 0 := by
            rw [if_neg]
            rintro ⟨h1, -, -, -⟩
            omega
          by_cases hm : c.includeStartMorning = false
          · rw [hA', if_pos ⟨hd, hm⟩, if_pos ⟨by omega, by omega, hd ▸ h0, hm⟩]
          · rw [hA', if_neg (fun hx => hm hx.2), if_neg (fun hx => hm hx.2.2.2)]
        · have hB : (if d = c.startDate ∧ c.includeStartMorning = false then 0 else 1) = 1 :=
            if_neg (fun hx => hd hx.1)
          have hAA : (if d ≤ c.startDate ∧ c.startDate < d + (n + 1) ∧ getDay c.startDate ≠ 0 ∧
                c.includeStartMorning = false then 1 else 0)
              = (if d + 1 ≤ c.startDate ∧ c.startDate < d + 1 + n ∧ getDay c.startDate ≠ 0 ∧
                c.includeStartMorning = false then 1 else 0) := by
            refine if_congr ⟨?_, ?_⟩ rfl rfl
            · rintro ⟨h1, h2, h3, h4⟩
              exact ⟨by omega, by omega, h3, h4⟩
            · rintro ⟨h1, h2, h3, h4⟩
              exact ⟨by omega, by omega, h3, h4⟩
          rw [hB, hAA]
      have hE : (if d = c.endDate ∧ c.includeEndEvening = false then 0 else 1)
            + (if d ≤ c.endDate ∧ c.endDate < d + (n + 1) ∧ getDay c.endDate ≠ 0 ∧
                c.includeEndEvening = false then 1 else 0)
          = 1 + (if d + 1 ≤ c.endDate ∧ c.endDate < d + 1 + n ∧ getDay c.endDate ≠ 0 ∧
                c.includeEndEvening = false then 1 else 0) := by
        by_cases hd : d = c.endDate
        · have hA' : (if d + 1 ≤ c.endDate ∧ c.endDate < d + 1 + n ∧ getDay c.endDate ≠ 0 ∧
              c.includeEndEvening = false then 1 else 0) = 0 := by
            rw [if_neg]
            rintro ⟨h1, -, -, -⟩
            omega
          by_cases hm : c.includeEndEvening = false
          · rw [hA', if_pos ⟨hd, hm⟩, if_pos ⟨by omega, by omega, hd ▸ h0, hm⟩]
          · rw [hA', if_neg (fun hx => hm hx.2), if_neg (fun hx => hm hx.2.2.2)]
        · have hB : (if d = c.endDate ∧ c.includeEndEvening = false then 0 else 1) = 1 :=
            if_neg (fun hx => hd hx.1)
          have hAA : (if d ≤ c.endDate ∧ c.endDate < d + (n + 1) ∧ getDay c.endDate ≠ 0 ∧
                c.includeEndEvening = false then 1 else 0)
              = (if d + 1 ≤ c.endDate ∧ c.endDate < d + 1 + n ∧ getDay c.endDate ≠ 0 ∧
                c.includeEndEvening = false then 1 else 0) := by
            refine if_congr ⟨?_, ?_⟩ rfl rfl
            · rintro ⟨h1, h2, h3, h4⟩
              exact ⟨by omega, by omega, h3, h4⟩
            · rintro ⟨h1, h2, h3, h4⟩
              exact ⟨by omega, by omega, h3, h4⟩
          rw [hB, hAA]
      have hgoal : (daySlots c d dn ++ rest).length
          = (if d = c.startDate ∧ c.includeStartMorning = false then 0 else 1)
            + (if d = c.endDate ∧ c.includeEndEvening = false then 0 else 1)
            + rest.length := by
        rw [List.length_append]
        simp only [daySlots, List.length_append]
        rw [hlen1, hlen2]
      rw [hgoal, hcount, if_pos h0]
      omega

end TimeSlotLemmas

section ShuffleLemmas

variable {α : Type}

/-- Moving the replaced element to the front is a permutation. -/
theorem cons_set_perm : ∀ (t : List α) (m : Nat) (b c : α), t.get? m = some b →
    (b :: t.set m c).Perm (c :: t) := by
  intro t
  induction t with
  | nil => intro m b c h; cases h
  | cons d u ih =>
    intro m b c h
    cases m with
    | zero =>
      have hdb : d = b := by simpa using h
      subst hdb
      exact List.Perm.swap ..
    | succ k =>
      have hk : u.get? k = some b := by simpa using h
      have e : (d :: u).set (k + 1) c = d :: u.set k c := rfl
      rw [e]
      exact (List.Perm.swap d b _).trans (((ih k b c hk).cons d).trans (List.Perm.swap c d u))

/-- Writing each of two read entries over the other is a permutation. -/
theorem set_set_perm : ∀ (l : List α) (i j : Nat) (a b : α),
    l.get? i = some a → l.get? j = some b → ((l.set i b).set j a).Perm l := by
  intro l
  induction l with
  | nil => intro i j a b h; cases h
  | cons c t ih =>
    intro i j a b hi hj
    cases i with
    | zero =>
      have hca : c = a := by simpa using hi
      subst hca
      cases j with
      | zero =>
        have hcb : c = b := by simpa using hj
        subst hcb
        exact List.Perm.refl _
      | succ m =>
        have hm : t.get? m = some b := by simpa using hj
        have e : ((c :: t).set 0 b).set (m + 1) c = b :: t.set m c := rfl
        rw [e]
        exact cons_set_perm t m b c hm
    | succ n =>
      have hn : t.get? n = some a := by simpa using hi
      cases j with
      | zero =>
        have hcb : c = b := by simpa using hj
        subst hcb
        have e : ((c :: t).set (n + 1) c).set 0 a = a :: t.set n c := rfl
        rw [e]
        exact cons_set_perm t n a c hn
      | succ m =>
        have hm : t.get? m = some b := by simpa using hj
        have e : ((c :: t).set (n + 1) b).set (m + 1) a = c :: (t.set n b).set m a := rfl
        rw [e]
        exact (ih n m a b hn hm).cons c

theorem swapIdx_perm (l : List α) (i j : Nat) : (swapIdx l i j).Perm l := by
  unfold swapIdx
  cases hi : l.get? i with
  | none => exact List.Perm.refl _
  | some a =>
    cases hj : l.get? j with
    | none => exact List.Perm.refl _
    | some b => exact set_set_perm l i j a b hi hj

theorem shuffleAux_perm : ∀ (i : Nat) (g : RNG) (l : List α), (shuffleAux g l i).1.Perm l := by
  intro i
  induction i with
  | zero => intro g l; exact List.Perm.refl _
  | succ n ih =>
    intro g l
    exact (ih (nextRand g).2 (swapIdx l (n + 1) ((nextRand g).1 % (n + 2)))).trans
      (swapIdx_perm l (n + 1) _)

theorem shuffleArray_perm (l : List α) (g : RNG) : (shuffleArray l g).1.Perm l :=
  shuffleAux_perm (l.length - 1) g l

theorem shuffleArray_length (l : List α) (g : RNG) : (shuffleArray l g).1.length = l.length :=
  (shuffleArray_perm l g).length_eq

theorem shuffleArray_mem {l : List α} {x : α} (g : RNG) :
    x ∈ (shuffleArray l g).1 ↔ x ∈ l :=
  (shuffleArray_perm l g).mem_iff

end ShuffleLemmas

section WeekOrderLemmas

/-- Summing the filtered counts over a duplicate-free list of keys that
contains the key of `x` recovers the plain count. -/
theorem count_flatMap_filter (x : TimeSlot) (l : List TimeSlot) :
    ∀ weeks : List Nat, weeks.Nodup → x.weekNumber ∈ weeks →
    (weeks.flatMap (fun w => l.filter (fun s => s.weekNumber == w))).count x
      = l.count x := by
  intro weeks
  induction weeks with
  | nil => intro _ h; cases h
  | cons w ws ih =>
    intro hnd hmem
    rw [List.flatMap_cons, List.count_append]
    by_cases hw : x.weekNumber = w
    · have h1 : (l.filter (fun s => s.weekNumber == w)).count x = l.count x := by
        rw [List.count_filter (by simp [hw])]
      have h2 : (ws.flatMap (fun w' => l.filter (fun s => s.weekNumber == w'))).count x = 0 := by
        rw [List.count_eq_zero]
        intro hx
        rcases List.mem_flatMap.1 hx with ⟨w', hw', hxf⟩
        have hxw : x.weekNumber = w' := by simpa using (List.mem_filter.1 hxf).2
        have hww : w' = w := by omega
        exact (List.nodup_cons.1 hnd).1 (hww ▸ hw')
      rw [h1, h2]
      omega
    · have h1 : (l.filter (fun s => s.weekNumber == w)).count x = 0 := by
        rw [List.count_eq_zero]
        intro hx
        exact hw (by simpa using (List.mem_filter.1 hx).2)
      have hmem' : x.weekNumber ∈ ws := by
        rcases List.mem_cons.1 hmem with h | h
        · exact absurd h hw
        · exact h
      rw [h1, ih (List.nodup_cons.1 hnd).2 hmem', Nat.zero_add]

/-- The week regrouping of a pass is a permutation of its input. -/
theorem weekOrder_perm (l : List TimeSlot) : (weekOrder l).Perm l := by
  rw [List.perm_iff_count]
  intro x
  by_cases hx : x ∈ l
  · have hmem : x.weekNumber ∈ ((l.map TimeSlot.weekNumber).dedup).insertionSort (· ≤ ·) := by
      rw [(List.perm_insertionSort (· ≤ ·) _).mem_iff, List.mem_dedup]
      exact List.mem_map.2 ⟨x, hx, rfl⟩
    have hnd : (((l.map TimeSlot.weekNumber).dedup).insertionSort (· ≤ ·)).Nodup :=
      (List.perm_insertionSort (· ≤ ·) _).symm.nodup (List.nodup_dedup _)
    exact count_flatMap_filter x l _ hnd hmem
  · have h1 : l.count x = 0 := List.count_eq_zero.2 hx
    have h2 : (weekOrder l).count x = 0 := by
      rw [List.count_eq_zero]
      intro hmem
      rcases List.mem_flatMap.1 hmem with ⟨w, _, hxf⟩
      exact hx (List.mem_filter.1 hxf).1
    rw [h1, h2]

end WeekOrderLemmas

section FindBestLemmas

theorem eligibleFor_mem {persons : List Person} {assignments : List Assignment}
    {t : TimeSlot} {p : Person} :
    p ∈ eligibleFor persons assignments t ↔
    p ∈ persons ∧ canPersonWorkSlot p t = true ∧
      isPersonAvailableForSlot assignments p.id t = true := by
  simp [eligibleFor, List.mem_filter, and_assoc]

/-- In a score-sorted list whose elements all have score at least `m`, the
score-`m` elements form exactly the initial segment. -/
theorem filter_eq_takeWhile_of_sorted :
    ∀ (l : List (Person × Nat)) (m : Nat), List.Sorted scoreRel l →
    (∀ sp ∈ l, m ≤ sp.2) →
    l.filter (fun sp => sp.2 == m) = l.takeWhile (fun sp => sp.2 == m) := by
  intro l
  induction l with
  | nil => intro m _ _; rfl
  | cons a l ih =>
    intro m hs hm
    rcases List.sorted_cons.1 hs with ⟨hrel, hsl⟩
    by_cases ha : a.2 = m
    · rw [List.filter_cons_of_pos (by simp [ha]), List.takeWhile_cons_of_pos (by simp [ha])]
      rw [ih m hsl (fun sp hsp => hm sp (List.mem_cons_of_mem a hsp))]
    · rw [List.filter_cons_of_neg (by simp [ha]), List.takeWhile_cons_of_neg (by simp [ha])]
      rw [List.filter_eq_nil_iff.2]
      intro sp hsp
      have h1 : a.2 ≤ sp.2 := hrel sp hsp
      have h2 : m ≤ a.2 := hm a (List.mem_cons_self a l)
      have h3 : m ≠ a.2 := fun he => ha he.symm
      simp only [beq_iff_eq]
      omega

/-- Full case analysis of `findBestPersonsForSlot`: either nobody is
eligible and the result is empty, or there is a score-sorted permutation
`sorted` of the scored eligible persons from which the result is drawn by
one of the two branches of the source. -/
theorem findBest_cases (persons : List Person) (assignments : List Assignment)
    (t : TimeSlot) (sid : String) (cnt : Nat) (g : RNG) :
    (eligibleFor persons assignments t = [] ∧
      (findBestPersonsForSlot persons assignments t sid cnt g).1 = []) ∨
    ∃ sorted : List (Person × Nat),
      sorted.Perm ((eligibleFor persons assignments t).map
        (fun p => (p, personScore assignments sid p.id))) ∧
      List.Sorted scoreRel sorted ∧ sorted ≠ [] ∧
      ((cnt ≤ (sorted.filter (fun sp => sp.2 == (sorted.headD noCandidate).2)).length ∧
        ∃ g2, (findBestPersonsForSlot persons assignments t sid cnt g).1
          = ((shuffleArray (sorted.filter
              (fun sp => sp.2 == (sorted.headD noCandidate).2)) g2).1.take cnt).map
              Prod.fst) ∨
       ((sorted.filter (fun sp => sp.2 == (sorted.headD noCandidate).2)).length < cnt ∧
        ∃ g2, (findBestPersonsForSlot persons assignments t sid cnt g).1
          = (sorted.filter (fun sp => sp.2 == (sorted.headD noCandidate).2)).map Prod.fst
            ++ ((shuffleArray (sorted.drop (sorted.filter
                (fun sp => sp.2 == (sorted.headD noCandidate).2)).length) g2).1.take
                (cnt - (sorted.filter
                  (fun sp => sp.2 == (sorted.headD noCandidate).2)).length)).map Prod.fst)) := by
  by_cases hE : (eligibleFor persons assignments t).isEmpty
  · left
    refine ⟨List.isEmpty_iff.1 hE, ?_⟩
    rw [findBestPersonsForSlot, if_pos hE]
  · right
    set E := eligibleFor persons assignments t with hEdef
    set scored := E.map (fun p => (p, personScore assignments sid p.id)) with hscored
    set sorted := ((shuffleArray scored g).1).insertionSort scoreRel with hsorted
    have hperm : sorted.Perm scored :=
      (List.perm_insertionSort scoreRel _).trans (shuffleArray_perm scored g)
    have hsort : List.Sorted scoreRel sorted := List.sorted_insertionSort scoreRel _
    have hne : sorted ≠ [] := by
      intro hnil
      have h0 : scored.length = 0 := by rw [← hperm.length_eq, hnil]; rfl
      have : E.length = 0 := by
        rw [hscored] at h0
        simpa using h0
      exact hE (by simpa [List.isEmpty_iff, List.length_eq_zero] using this)
    refine ⟨sorted, hperm, hsort, hne, ?_⟩
    by_cases hc : cnt ≤ (sorted.filter (fun sp => sp.2 == (sorted.headD noCandidate).2)).length
    · left
      refine ⟨hc, (shuffleArray scored g).2, ?_⟩
      rw [findBestPersonsForSlot, if_neg hE]
      simp only [← hEdef, ← hscored, ← hsorted]
      rw [if_pos hc]
    · right
      refine ⟨by omega, (shuffleArray scored g).2, ?_⟩
      rw [findBestPersonsForSlot, if_neg hE]
      simp only [← hEdef, ← hscored, ← hsorted]
      rw [if_neg hc]
      simp only [List.length_map]

end FindBestLemmas

section FindBestFacts

/-- Elements of a permutation of the scored list are scored eligible
persons. -/
theorem mem_sorted_elim {persons : List Person} {assignments : List Assignment}
    {t : TimeSlot} {sid : String} {sorted : List (Person × Nat)}
    (hperm : sorted.Perm ((eligibleFor persons assignments t).map
      (fun p => (p, personScore assignments sid p.id))))
    {sp : Person × Nat} (hsp : sp ∈ sorted) :
    sp.1 ∈ eligibleFor persons assignments t ∧
      sp.2 = personScore assignments sid sp.1.id := by
  have := hperm.mem_iff.1 hsp
  rcases List.mem_map.1 this with ⟨p, hp, he⟩
  cases he
  exact ⟨hp, rfl⟩

/-- The head of a sorted candidate list has the minimal score. -/
theorem headD_min {sorted : List (Person × Nat)} (hsort : List.Sorted scoreRel sorted) :
    ∀ sp ∈ sorted, (sorted.headD noCandidate).2 ≤ sp.2 := by
  cases sorted with
  | nil => intro sp h; cases h
  | cons a l =>
    intro sp hsp
    rcases List.mem_cons.1 hsp with h | h
    · subst h; exact Nat.le_refl _
    · exact List.rel_of_sorted_cons hsort sp h

theorem headD_mem {sorted : List (Person × Nat)} (hne : sorted ≠ []) :
    sorted.headD noCandidate ∈ sorted := by
  cases sorted with
  | nil => exact absurd rfl hne
  | cons a l => exact List.mem_cons_self a l

/-- The source's best-candidate list is a permutation of the minimal-score
eligible persons (paired with their score). -/
theorem best_perm_filter {persons : List Person} {assignments : List Assignment}
    {t : TimeSlot} {sid : String} {sorted : List (Person × Nat)} {m : Nat}
    (hperm : sorted.Perm ((eligibleFor persons assignments t).map
      (fun p => (p, personScore assignments sid p.id)))) :
    (sorted.filter (fun sp => sp.2 == m)).Perm
      (((eligibleFor persons assignments t).filter
        (fun p => personScore assignments sid p.id == m)).map
        (fun p => (p, personScore assignments sid p.id))) := by
  have h1 := hperm.filter (fun sp => sp.2 == m)
  rwa [List.filter_map] at h1

/-- `bestGroup` is the filter of the eligible persons whose score equals
the minimal (head) score of any sorted permutation of the candidates. -/
theorem bestGroup_eq_filter {persons : List Person} {assignments : List Assignment}
    {t : TimeSlot} {sid : String} {sorted : List (Person × Nat)}
    (hperm : sorted.Perm ((eligibleFor persons assignments t).map
      (fun p => (p, personScore assignments sid p.id))))
    (hsort : List.Sorted scoreRel sorted) (hne : sorted ≠ []) :
    bestGroup persons assignments t sid
      = (eligibleFor persons assignments t).filter
          (fun p => personScore assignments sid p.id == (sorted.headD noCandidate).2) := by
  have hmin : ∀ q ∈ eligibleFor persons assignments t,
      (sorted.headD noCandidate).2 ≤ personScore assignments sid q.id := by
    intro q hq
    have hmem : (q, personScore assignments sid q.id) ∈ sorted :=
      hperm.mem_iff.2 (List.mem_map.2 ⟨q, hq, rfl⟩)
    exact headD_min hsort _ hmem
  have hhead := mem_sorted_elim hperm (headD_mem hne)
  apply List.filter_congr
  intro p hp
  have h1 : (sorted.headD noCandidate).2 ≤ personScore assignments sid p.id := hmin p hp
  have h4 : (sorted.headD noCandidate).2
      = personScore assignments sid (sorted.headD noCandidate).1.id := hhead.2
  refine Bool.eq_iff_iff.2 ?_
  simp only [List.all_eq_true, decide_eq_true_eq, beq_iff_eq]
  constructor
  · intro hall
    have h2 := hall (sorted.headD noCandidate).1 hhead.1
    omega
  · intro heq q hq
    have h5 := hmin q hq
    omega

/-- Lengths of the best-candidate list and of `bestGroup` agree. -/
theorem best_length_eq {persons : List Person} {assignments : List Assignment}
    {t : TimeSlot} {sid : String} {sorted : List (Person × Nat)}
    (hperm : sorted.Perm ((eligibleFor persons assignments t).map
      (fun p => (p, personScore assignments sid p.id))))
    (hsort : List.Sorted scoreRel sorted) (hne : sorted ≠ []) :
    (sorted.filter (fun sp => sp.2 == (sorted.headD noCandidate).2)).length
      = (bestGroup persons assignments t sid).length := by
  rw [bestGroup_eq_filter hperm hsort hne]
  rw [(best_perm_filter hperm).length_eq, List.length_map]

/-- Every selected person is eligible. -/
theorem findBest_mem (persons : List Person) (assignments : List Assignment)
    (t : TimeSlot) (sid : String) (cnt : Nat) (g : RNG) :
    ∀ p ∈ (findBestPersonsForSlot persons assignments t sid cnt g).1,
      p ∈ eligibleFor persons assignments t := by
  intro p hp
  rcases findBest_cases persons assignments t sid cnt g with ⟨_, hr⟩ | ⟨sorted, hperm, _, _, hbr⟩
  · rw [hr] at hp; cases hp
  · rcases hbr with ⟨_, g2, hr⟩ | ⟨_, g2, hr⟩
    · rw [hr] at hp
      rcases List.mem_map.1 hp with ⟨sp, hsp, he⟩
      have h1 : sp ∈ sorted := by
        have h2 := (List.take_sublist _ _).subset hsp
        have h3 := (shuffleArray_perm _ g2).mem_iff.1 h2
        exact (List.filter_sublist _).subset h3
      subst he
      exact (mem_sorted_elim hperm h1).1
    · rw [hr] at hp
      rcases List.mem_append.1 hp with hmem | hmem
      · rcases List.mem_map.1 hmem with ⟨sp, hsp, he⟩
        subst he
        exact (mem_sorted_elim hperm ((List.filter_sublist _).subset hsp)).1
      · rcases List.mem_map.1 hmem with ⟨sp, hsp, he⟩
        subst he
        have h2 := (List.take_sublist _ _).subset hsp
        have h3 := (shuffleArray_perm _ g2).mem_iff.1 h2
        exact (mem_sorted_elim hperm ((List.drop_sublist _ _).subset h3)).1

/-- The selection returns exactly `min cnt (number of eligible persons)`
persons. -/
theorem findBest_length (persons : List Person) (assignments : List Assignment)
    (t : TimeSlot) (sid : String) (cnt : Nat) (g : RNG) :
    (findBestPersonsForSlot persons assignments t sid cnt g).1.length
      = min cnt (eligibleFor persons assignments t).length := by
  rcases findBest_cases persons assignments t sid cnt g with ⟨hE, hr⟩ | ⟨sorted, hperm, _, _, hbr⟩
  · rw [hr, hE]
    simp
  · have hlen : sorted.length = (eligibleFor persons assignments t).length := by
      rw [hperm.length_eq, List.length_map]
    have hble : (sorted.filter (fun sp => sp.2 == (sorted.headD noCandidate).2)).length
        ≤ sorted.length := List.length_filter_le _ _
    rcases hbr with ⟨hc, g2, hr⟩ | ⟨hc, g2, hr⟩
    · rw [hr, List.length_map, List.length_take, (shuffleArray_perm _ g2).length_eq]
      omega
    · rw [hr, List.length_append, List.length_map, List.length_map, List.length_take,
        (shuffleArray_perm _ g2).length_eq, List.length_drop]
      omega

end FindBestFacts

section FindBestSelection

/-- Dropping the length of the initial true-segment is `dropWhile`. -/
theorem drop_length_takeWhile {α : Type} (p : α → Bool) (l : List α) :
    l.drop (l.takeWhile p).length = l.dropWhile p := by
  induction l with
  | nil => rfl
  | cons a l ih =>
    by_cases h : p a
    · rw [List.takeWhile_cons_of_pos h, List.dropWhile_cons_of_pos h]
      simpa using ih
    · rw [List.takeWhile_cons_of_neg h, List.dropWhile_cons_of_neg h]
      rfl

/-- Distinct ids among the eligible persons yield distinct ids among the
selected persons. -/
theorem findBest_nodup (persons : List Person) (assignments : List Assignment)
    (t : TimeSlot) (sid : String) (cnt : Nat) (g : RNG)
    (hnd : ((eligibleFor persons assignments t).map Person.id).Nodup) :
    ((findBestPersonsForSlot persons assignments t sid cnt g).1.map Person.id).Nodup := by
  rcases findBest_cases persons assignments t sid cnt g with ⟨_, hr⟩ | ⟨sorted, hperm, hsort, hne, hbr⟩
  · rw [hr]; exact List.nodup_nil
  · have hsortnd : (sorted.map (fun sp => sp.1.id)).Nodup := by
      have h1 : (sorted.map (fun sp => sp.1.id)).Perm
          (((eligibleFor persons assignments t).map
            (fun p => (p, personScore assignments sid p.id))).map (fun sp => sp.1.id)) :=
        hperm.map _
      have h2 : ((eligibleFor persons assignments t).map
          (fun p => (p, personScore assignments sid p.id))).map (fun sp => sp.1.id)
          = (eligibleFor persons assignments t).map Person.id := by
        rw [List.map_map]
        rfl
      rw [h2] at h1
      exact h1.symm.nodup hnd
    rcases hbr with ⟨_, g2, hr⟩ | ⟨_, g2, hr⟩
    · rw [hr, List.map_map]
      have hbest : ((sorted.filter
          (fun sp => sp.2 == (sorted.headD noCandidate).2)).map (fun sp => sp.1.id)).Nodup :=
        ((List.filter_sublist _).map _).nodup hsortnd
      have hshuf : (((shuffleArray (sorted.filter
          (fun sp => sp.2 == (sorted.headD noCandidate).2)) g2).1).map
            (fun sp => sp.1.id)).Nodup :=
        ((shuffleArray_perm _ g2).map _).symm.nodup hbest
      exact ((List.take_sublist _ _).map _).nodup hshuf
    · rw [hr]
      set m := (sorted.headD noCandidate).2 with hm
      have hto : sorted.filter (fun sp => sp.2 == m)
          = sorted.takeWhile (fun sp => sp.2 == m) :=
        filter_eq_takeWhile_of_sorted sorted m hsort (headD_min hsort)
      have hsplit : sorted = sorted.takeWhile (fun sp => sp.2 == m)
          ++ sorted.dropWhile (fun sp => sp.2 == m) :=
        (List.takeWhile_append_dropWhile _ _).symm
      have hdrop : sorted.drop (sorted.filter (fun sp => sp.2 == m)).length
          = sorted.dropWhile (fun sp => sp.2 == m) := by
        rw [hto]
        exact drop_length_takeWhile _ sorted
      have hparts : ((sorted.takeWhile (fun sp => sp.2 == m)).map (fun sp => sp.1.id)
          ++ (sorted.dropWhile (fun sp => sp.2 == m)).map (fun sp => sp.1.id)).Nodup := by
        rw [← List.map_append, ← hsplit]
        exact hsortnd
      rcases List.nodup_append.1 hparts with ⟨hnd1, hnd2, hdisj⟩
      rw [List.map_append, List.map_map, List.map_map]
      apply List.nodup_append.2
      refine ⟨by rw [hto]; exact hnd1, ?_, ?_⟩
      · have hsub : ((shuffleArray (sorted.drop (sorted.filter
            (fun sp => sp.2 == m)).length) g2).1.take (cnt - (sorted.filter
            (fun sp => sp.2 == m)).length)).map (fun sp => sp.1.id)
            |>.Sublist (((shuffleArray (sorted.drop (sorted.filter
              (fun sp => sp.2 == m)).length) g2).1).map (fun sp => sp.1.id)) :=
          (List.take_sublist _ _).map _
        have hp2 : (((shuffleArray (sorted.drop (sorted.filter
            (fun sp => sp.2 == m)).length) g2).1).map (fun sp => sp.1.id)).Nodup := by
          have := ((shuffleArray_perm (sorted.drop (sorted.filter
            (fun sp => sp.2 == m)).length) g2).map (fun sp => sp.1.id)).symm.nodup
          rw [hdrop] at this ⊢
          exact this hnd2
        exact hsub.nodup hp2
      · intro x hx1 hx2
        rcases List.mem_map.1 hx1 with ⟨sp, hsp, he⟩
        rcases List.mem_map.1 hx2 with ⟨sq, hsq, he2⟩
        have hq1 : sq ∈ sorted.dropWhile (fun sp => sp.2 == m) := by
          have h2 := (List.take_sublist _ _).subset hsq
          have h3 := (shuffleArray_perm _ g2).mem_iff.1 h2
          rwa [hdrop] at h3
        rw [hto] at hsp
        exact hdisj (List.mem_map.2 ⟨sp, hsp, he⟩) (he2 ▸ List.mem_map.2 ⟨sq, hq1, rfl⟩)

/-- When the minimal-score group is large enough, every selected person has
a minimal score among the eligible candidates. -/
theorem findBest_min_sel (persons : List Person) (assignments : List Assignment)
    (t : TimeSlot) (sid : String) (cnt : Nat) (g : RNG)
    (hbig : cnt ≤ (bestGroup persons assignments t sid).length) :
    ∀ p ∈ (findBestPersonsForSlot persons assignments t sid cnt g).1,
    ∀ q ∈ eligibleFor persons assignments t,
      personScore assignments sid p.id ≤ personScore assignments sid q.id := by
  intro p hp q hq
  rcases findBest_cases persons assignments t sid cnt g with ⟨_, hr⟩ | ⟨sorted, hperm, hsort, hne, hbr⟩
  · rw [hr] at hp; cases hp
  · have hlen := best_length_eq hperm hsort hne
    have hmin : ∀ q' ∈ eligibleFor persons assignments t,
        (sorted.headD noCandidate).2 ≤ personScore assignments sid q'.id := by
      intro q' hq'
      exact headD_min hsort _ (hperm.mem_iff.2 (List.mem_map.2 ⟨q', hq', rfl⟩))
    rcases hbr with ⟨_, g2, hr⟩ | ⟨hc, _, _⟩
    · rw [hr] at hp
      rcases List.mem_map.1 hp with ⟨sp, hsp, he⟩
      have h2 := (List.take_sublist _ _).subset hsp
      have h3 := (shuffleArray_perm _ g2).mem_iff.1 h2
      have h4 := List.mem_filter.1 h3
      have h5 : sp.2 = (sorted.headD noCandidate).2 := by simpa using h4.2
      have h6 := mem_sorted_elim hperm h4.1
      subst he
      rw [← h6.2, h5]
      exact hmin q hq
    · omega

/-- When the minimal-score group is too small, it is contained whole in the
selection. -/
theorem findBest_group_sub (persons : List Person) (assignments : List Assignment)
    (t : TimeSlot) (sid : String) (cnt : Nat) (g : RNG)
    (hsmall : (bestGroup persons assignments t sid).length < cnt) :
    ∀ p ∈ bestGroup persons assignments t sid,
      p ∈ (findBestPersonsForSlot persons assignments t sid cnt g).1 := by
  intro p hp
  rcases findBest_cases persons assignments t sid cnt g with ⟨hE, _⟩ | ⟨sorted, hperm, hsort, hne, hbr⟩
  · rw [bestGroup, hE] at hp
    cases hp
  · have hlen := best_length_eq hperm hsort hne
    rcases hbr with ⟨hc, _, _⟩ | ⟨_, g2, hr⟩
    · omega
    · rw [hr]
      apply List.mem_append_left
      rw [bestGroup_eq_filter hperm hsort hne] at hp
      have h1 : (p, personScore assignments sid p.id) ∈
          sorted.filter (fun sp => sp.2 == (sorted.headD noCandidate).2) :=
        (best_perm_filter hperm).mem_iff.2 (List.mem_map.2 ⟨p, hp, rfl⟩)
      exact List.mem_map.2 ⟨_, h1, rfl⟩

end FindBestSelection

section PoolLemmas

/-- The dynamic eligibility filter is the static pool minus the ids already
booked on the slot. -/
theorem eligibleFor_eq (persons : List Person) (A : List Assignment) (s : TimeSlot) :
    eligibleFor persons A s
      = (slotPool persons s).filter (fun p => !((bookedIds A s).contains p.id)) := by
  rw [eligibleFor, slotPool, List.filter_filter]
  apply List.filter_congr
  intro p _
  have hAv : isPersonAvailableForSlot A p.id s = !((bookedIds A s).contains p.id) := by
    simp only [isPersonAvailableForSlot]
    congr 1
    rw [bookedIds, List.contains_eq_any_beq]
    refine Bool.eq_iff_iff.2 ?_
    simp only [List.any_eq_true, List.mem_map, List.mem_filter, keyMatches,
      Bool.and_eq_true, beq_iff_eq]
    aesop
  rw [hAv, Bool.and_comm]

/-- Removing the one element carrying id `i` shortens a duplicate-free pool
by exactly one. -/
theorem length_filter_ne_id :
    ∀ (pool : List Person) (i : String), (pool.map Person.id).Nodup →
    i ∈ pool.map Person.id →
    (pool.filter (fun p => !(p.id == i))).length = pool.length - 1 := by
  intro pool
  induction pool with
  | nil => intro i _ h; cases h
  | cons q pool ih =>
    intro i hnd hmem
    rw [List.map_cons] at hnd hmem
    rcases List.nodup_cons.1 hnd with ⟨hq, hnd'⟩
    by_cases hqi : q.id = i
    · rw [List.filter_cons_of_neg (by simp [hqi])]
      have hall : pool.filter (fun p => !(p.id == i)) = pool := by
        rw [List.filter_eq_self]
        intro p hp
        have hne : p.id ≠ i := fun he =>
          hq (List.mem_map.2 ⟨p, hp, by rw [he]; exact hqi.symm⟩)
        simp [hne]
      rw [hall]
      simp
    · rw [List.filter_cons_of_pos (by simp [hqi])]
      have hmem' : i ∈ pool.map Person.id := by
        rcases List.mem_cons.1 hmem with h | h
        · exact absurd h.symm hqi
        · exact h
      have hlen : 1 ≤ pool.length := by
        rcases List.mem_map.1 hmem' with ⟨p, hp, _⟩
        exact List.length_pos.2 (List.ne_nil_of_mem hp)
      rw [List.length_cons, ih i hnd' hmem']
      simp only [List.length_cons]
      omega

/-- Excluding a duplicate-free id list that is present in a duplicate-free
pool shortens it by the number of ids. -/
theorem length_filter_not_contains :
    ∀ (ids : List String) (pool : List Person), (pool.map Person.id).Nodup →
    ids.Nodup → (∀ i ∈ ids, i ∈ pool.map Person.id) →
    (pool.filter (fun p => !(ids.contains p.id))).length = pool.length - ids.length := by
  intro ids
  induction ids with
  | nil =>
    intro pool _ _ _
    have : pool.filter (fun p => !(([] : List String).contains p.id)) = pool := by
      rw [List.filter_eq_self]
      intro p _
      rfl
    rw [this]
    rfl
  | cons i ids ih =>
    intro pool hnd hids hsub
    rcases List.nodup_cons.1 hids with ⟨hi, hids'⟩
    have hsplit : pool.filter (fun p => !(((i :: ids).contains p.id)))
        = (pool.filter (fun p => !(p.id == i))).filter (fun p => !(ids.contains p.id)) := by
      rw [List.filter_filter]
      apply List.filter_congr
      intro p _
      rw [List.contains_cons]
      refine Bool.eq_iff_iff.2 ?_
      simp only [Bool.not_eq_true', Bool.or_eq_false_iff, Bool.and_eq_true,
        Bool.not_eq_true]
      tauto
    have hndp : ((pool.filter (fun p => !(p.id == i))).map Person.id).Nodup :=
      ((List.filter_sublist _).map _).nodup hnd
    have hsubp : ∀ j ∈ ids, j ∈ (pool.filter (fun p => !(p.id == i))).map Person.id := by
      intro j hj
      rcases List.mem_map.1 (hsub j (List.mem_cons_of_mem i hj)) with ⟨p, hp, he⟩
      refine List.mem_map.2 ⟨p, List.mem_filter.2 ⟨hp, ?_⟩, he⟩
      have : p.id ≠ i := fun hpe => hi (by rw [← hpe, he]; exact hj)
      simp [this]
    rw [hsplit, ih _ hndp hids' hsubp,
      length_filter_ne_id pool i hnd (hsub i (List.mem_cons_self i ids))]
    simp only [List.length_cons]
    omega

/-- Cardinality of the dynamic eligibility list. -/
theorem eligibleFor_length (persons : List Person) (A : List Assignment) (s : TimeSlot)
    (hnd : (persons.map Person.id).Nodup)
    (hbk : (bookedIds A s).Nodup)
    (hsub : ∀ i ∈ bookedIds A s, i ∈ (slotPool persons s).map Person.id) :
    (eligibleFor persons A s).length
      = (slotPool persons s).length - (bookedIds A s).length := by
  rw [eligibleFor_eq]
  exact length_filter_not_contains (bookedIds A s) (slotPool persons s)
    (((List.filter_sublist _).map _).nodup hnd) hbk hsub

end PoolLemmas

section PassStationLemmas

theorem bookedIds_append (A B : List Assignment) (s : TimeSlot) :
    bookedIds (A ++ B) s = bookedIds A s ++ bookedIds B s := by
  simp [bookedIds, List.filter_append]

theorem keyMatches_mk (slot : TimeSlot) (stn : Station) (p : Person) :
    keyMatches (mkAssignment slot stn p) slot = true := by
  simp [keyMatches, mkAssignment]

theorem batch_bookedIds (slot : TimeSlot) (stn : Station) (ps : List Person) :
    bookedIds (ps.map (mkAssignment slot stn)) slot = ps.map Person.id := by
  rw [bookedIds, List.filter_map]
  have h1 : ps.filter ((fun a => keyMatches a slot) ∘ mkAssignment slot stn) = ps := by
    rw [List.filter_eq_self]
    intro p _
    exact keyMatches_mk slot stn p
  rw [h1, List.map_map]
  rfl

theorem mem_eligible_iff {persons : List Person} {A : List Assignment} {s : TimeSlot}
    {p : Person} :
    p ∈ eligibleFor persons A s ↔ p ∈ slotPool persons s ∧ p.id ∉ bookedIds A s := by
  rw [eligibleFor_eq, List.mem_filter]
  simp

theorem eligible_ids_nodup {persons : List Person} {A : List Assignment} {s : TimeSlot}
    (hper : (persons.map Person.id).Nodup) :
    ((eligibleFor persons A s).map Person.id).Nodup :=
  ((List.filter_sublist _).map _).nodup hper

theorem slotPool_ids_nodup {persons : List Person} {s : TimeSlot}
    (hper : (persons.map Person.id).Nodup) :
    ((slotPool persons s).map Person.id).Nodup :=
  ((List.filter_sublist _).map _).nodup hper

end PassStationLemmas

/-- Complete accounting of the station loop at one slot: the appended
assignments and diagnostics, their provenance, the freshness of the booked
ids, the capacity characterization of "no diagnostic", and the per-station
batch size of two on diagnostic-free runs. -/
theorem processStations_spec (persons : List Person) (slot : TimeSlot)
    (hper : (persons.map Person.id).Nodup) :
    ∀ (S : List Station) (st0 : PassState) (g : RNG),
    (bookedIds st0.assignments slot).Nodup →
    (∀ i ∈ bookedIds st0.assignments slot, i ∈ (slotPool persons slot).map Person.id) →
    ∃ newA newE,
      (processStations persons slot S st0 g).1.assignments = st0.assignments ++ newA ∧
      (processStations persons slot S st0 g).1.errors = st0.errors ++ newE ∧
      (∀ x ∈ newA, keyMatches x slot = true ∧ x.dayOfWeek = slot.day ∧
        x.timeSlot = slot.time ∧ x.date = slot.date ∧
        (∃ p ∈ slotPool persons slot, x.personId = p.id) ∧
        (∃ stn ∈ S, x.stationId = stn.id)) ∧
      (newA.map Assignment.personId).Nodup ∧
      (∀ i ∈ newA.map Assignment.personId, i ∉ bookedIds st0.assignments slot) ∧
      (newE = [] ↔ (bookedIds st0.assignments slot).length + 2 * S.length
        ≤ (slotPool persons slot).length) ∧
      ((S.map Station.id).Nodup → newE = [] → ∀ stn ∈ S,
        (newA.filter (fun x => x.stationId == stn.id)).length = 2) := by
  intro S
  induction S with
  | nil =>
    intro st0 g hbk hsub
    refine ⟨[], [], by simp [processStations], by simp [processStations], ?_, ?_, ?_, ?_, ?_⟩
    · intro x hx; cases hx
    · simp
    · intro i hi; simp at hi
    · constructor
      · intro _
        have hle := (hbk.subperm hsub).length_le
        rw [List.length_map] at hle
        simp only [List.length_nil]
        omega
      · intro _; rfl
    · intro _ _ stn hstn; cases hstn
  | cons stn rest ih =>
    intro st0 g hbk hsub
    set fb := findBestPersonsForSlot persons st0.assignments slot stn.id 2 g with hfb
    set ps := fb.1 with hps
    set batch := ps.map (mkAssignment slot stn) with hbatch
    have hlenE : (eligibleFor persons st0.assignments slot).length
        = (slotPool persons slot).length - (bookedIds st0.assignments slot).length :=
      eligibleFor_length persons st0.assignments slot hper hbk hsub
    have hKP : (bookedIds st0.assignments slot).length ≤ (slotPool persons slot).length := by
      have hle := (hbk.subperm hsub).length_le
      rwa [List.length_map] at hle
    have hpslen : ps.length = min 2 (eligibleFor persons st0.assignments slot).length :=
      findBest_length persons st0.assignments slot stn.id 2 g
    have hpsmem : ∀ p ∈ ps, p ∈ eligibleFor persons st0.assignments slot :=
      findBest_mem persons st0.assignments slot stn.id 2 g
    have hpsnd : (ps.map Person.id).Nodup :=
      findBest_nodup persons st0.assignments slot stn.id 2 g (eligible_ids_nodup hper)
    have hpsle : ps.length ≤ 2 := by rw [hpslen]; omega
    have hcases : ps.length = 2 ∨ ps.length = 1 ∨ ps.length = 0 := by omega
    have hunfold : processStations persons slot (stn :: rest) st0 g
        = processStations persons slot rest
            (if 2 ≤ ps.length then
              { st0 with assignments := st0.assignments ++ batch }
             else if ps.length == 1 then
              { assignments := st0.assignments ++ batch
                errors := st0.errors ++ [onlyOneMsg slot stn] }
             else { st0 with errors := st0.errors ++ [nonePlacedMsg slot stn] })
            fb.2 := rfl
    have hbatchids : batch.map Assignment.personId = ps.map Person.id := by
      rw [hbatch, List.map_map]
      rfl
    obtain ⟨batchE, hbE, hst1⟩ : ∃ batchE : List String,
        (batchE = [] ↔ ps.length = 2) ∧
        (if 2 ≤ ps.length then
            { st0 with assignments := st0.assignments ++ batch }
          else if ps.length == 1 then
            ({ assignments := st0.assignments ++ batch
               errors := st0.errors ++ [onlyOneMsg slot stn] } : PassState)
          else { st0 with errors := st0.errors ++ [nonePlacedMsg slot stn] })
          = ⟨st0.assignments ++ batch, st0.errors ++ batchE⟩ := by
      rcases hcases with h2 | h1 | h0
      · refine ⟨[], by simp [h2], ?_⟩
        rw [if_pos (by omega)]
        simp
      · refine ⟨[onlyOneMsg slot stn], by simp [h1], ?_⟩
        rw [if_neg (by omega), if_pos (by simp [h1])]
      · have hpsnil : ps = [] := List.length_eq_zero.1 h0
        refine ⟨[nonePlacedMsg slot stn], by simp [h0], ?_⟩
        rw [if_neg (by omega), if_neg (by simp [h0])]
        have hbnil : batch = [] := by rw [hbatch, hpsnil]; rfl
        rw [hbnil, List.append_nil]
    rw [hst1] at hunfold
    have hbooked1 : bookedIds (st0.assignments ++ batch) slot
        = bookedIds st0.assignments slot ++ ps.map Person.id := by
      rw [bookedIds_append, hbatch, batch_bookedIds]
    have hpsfresh : ∀ i ∈ ps.map Person.id, i ∉ bookedIds st0.assignments slot := by
      intro i hi
      rcases List.mem_map.1 hi with ⟨p, hp, rfl⟩
      exact (mem_eligible_iff.1 (hpsmem p hp)).2
    have hpspool : ∀ i ∈ ps.map Person.id, i ∈ (slotPool persons slot).map Person.id := by
      intro i hi
      rcases List.mem_map.1 hi with ⟨p, hp, rfl⟩
      exact List.mem_map.2 ⟨p, (mem_eligible_iff.1 (hpsmem p hp)).1, rfl⟩
    have hbk1 : (bookedIds (st0.assignments ++ batch) slot).Nodup := by
      rw [hbooked1]
      exact List.nodup_append.2 ⟨hbk, hpsnd, fun i hib hips => hpsfresh i hips hib⟩
    have hsub1 : ∀ i ∈ bookedIds (st0.assignments ++ batch) slot,
        i ∈ (slotPool persons slot).map Person.id := by
      rw [hbooked1]
      intro i hi
      rcases List.mem_append.1 hi with h | h
      · exact hsub i h
      · exact hpspool i h
    obtain ⟨newA, newE, hA, hEr, hprov, hnd, hfresh, hiff, hcnt⟩ :=
      ih ⟨st0.assignments ++ batch, st0.errors ++ batchE⟩ fb.2 hbk1 hsub1
    refine ⟨batch ++ newA, batchE ++ newE, ?_, ?_, ?_, ?_, ?_, ?_, ?_⟩
    · rw [hunfold, hA]
      simp [List.append_assoc]
    · rw [hunfold, hEr]
      simp [List.append_assoc]
    · intro x hx
      rcases List.mem_append.1 hx with hxb | hxn
      · rcases List.mem_map.1 hxb with ⟨p, hp, rfl⟩
        refine ⟨keyMatches_mk slot stn p, rfl, rfl, rfl,
          ⟨p, (mem_eligible_iff.1 (hpsmem p hp)).1, rfl⟩,
          ⟨stn, List.mem_cons_self stn rest, rfl⟩⟩
      · obtain ⟨hk, hd, ht, hdt, hp, stn', hstn', hsid⟩ := hprov x hxn
        exact ⟨hk, hd, ht, hdt, hp, ⟨stn', List.mem_cons_of_mem stn hstn', hsid⟩⟩
    · rw [List.map_append, hbatchids]
      refine List.nodup_append.2 ⟨hpsnd, hnd, ?_⟩
      intro i hips hin
      have h1 := hfresh i hin
      rw [hbooked1] at h1
      exact h1 (List.mem_append_right _ hips)
    · intro i hi
      rw [List.map_append, hbatchids] at hi
      rcases List.mem_append.1 hi with h | h
      · exact hpsfresh i h
      · intro hib
        have h1 := hfresh i h
        rw [hbooked1] at h1
        exact h1 (List.mem_append_left _ hib)
    · have hlen1 : (bookedIds (st0.assignments ++ batch) slot).length
          = (bookedIds st0.assignments slot).length + ps.length := by
        rw [hbooked1, List.length_append, List.length_map]
      rcases hcases with h2 | h1 | h0
      · have hbEnil : batchE = [] := hbE.2 h2
        rw [hbEnil, List.nil_append]
        rw [hiff, hlen1, h2]
        simp only [List.length_cons]
        constructor <;> intro <;> omega
      · constructor
        · intro hnil
          have : batchE = [] := (List.append_eq_nil.1 hnil).1
          rw [hbE.1 this] at h1
          omega
        · intro hcap
          simp only [List.length_cons] at hcap
          rw [hpslen] at h1
          omega
      · constructor
        · intro hnil
          have : batchE = [] := (List.append_eq_nil.1 hnil).1
          rw [hbE.1 this] at h0
          omega
        · intro hcap
          simp only [List.length_cons] at hcap
          rw [hpslen] at h0
          omega
    · intro hndS hE0 stn' hstn'
      have hE0' : batchE = [] ∧ newE = [] := List.append_eq_nil.1 hE0
      have hps2 : ps.length = 2 := hbE.1 hE0'.1
      rw [List.map_cons] at hndS
      rcases List.nodup_cons.1 hndS with ⟨hstnid, hndrest⟩
      rcases List.mem_cons.1 hstn' with hh | hh
      · subst hh
        rw [List.filter_append, List.length_append]
        have hbf : batch.filter (fun x => x.stationId == stn'.id) = batch := by
          rw [List.filter_eq_self]
          intro x hx
          rcases List.mem_map.1 hx with ⟨p, _, rfl⟩
          simp [mkAssignment]
        have hnf : newA.filter (fun x => x.stationId == stn'.id) = [] := by
          rw [List.filter_eq_nil_iff]
          intro x hx
          obtain ⟨_, _, _, _, _, stn'', hstn'', hsid⟩ := hprov x hx
          have hne : stn''.id ≠ stn'.id := by
            intro he
            exact hstnid (he ▸ List.mem_map.2 ⟨stn'', hstn'', rfl⟩)
          simp [hsid, hne]
        rw [hbf, hnf, hbatch, List.length_map, hps2]
        rfl
      · rw [List.filter_append, List.length_append]
        have hbf : batch.filter (fun x => x.stationId == stn'.id) = [] := by
          rw [List.filter_eq_nil_iff]
          intro x hx
          rcases List.mem_map.1 hx with ⟨p, _, rfl⟩
          have hne : stn.id ≠ stn'.id := by
            intro he
            exact hstnid (he ▸ List.mem_map.2 ⟨stn', hh, rfl⟩)
          simp [mkAssignment, hne]
        rw [hbf, hcnt hndrest hE0'.2 stn' hh]
        rfl

/-- Accounting of the slot loop of one pass, threading the freshness of
slot keys: appended assignments and diagnostics with provenance, absence of
double-booking, the capacity characterization of "no diagnostic", and the
exact staffing count of two per slot and station on diagnostic-free
passes. -/
theorem processSlots_spec (persons : List Person) (stations : List Station)
    (hper : (persons.map Person.id).Nodup) :
    ∀ (L : List TimeSlot) (st0 : PassState) (g : RNG),
    (L.map slotKey).Nodup →
    (∀ a ∈ st0.assignments, ∀ s ∈ L, ¬(a.date = s.date ∧ a.timeSlot = s.time)) →
    ∃ newA newE,
      (processSlots persons stations L st0 g).1.assignments = st0.assignments ++ newA ∧
      (processSlots persons stations L st0 g).1.errors = st0.errors ++ newE ∧
      (∀ x ∈ newA, ∃ s ∈ L, x.dayOfWeek = s.day ∧ x.timeSlot = s.time ∧
        x.date = s.date ∧ (∃ p ∈ slotPool persons s, x.personId = p.id) ∧
        (∃ stn ∈ stations, x.stationId = stn.id)) ∧
      newA.Pairwise noDouble ∧
      (newE = [] ↔ ∀ s ∈ L, 2 * stations.length ≤ (slotPool persons s).length) ∧
      ((stations.map Station.id).Nodup → newE = [] → ∀ s ∈ L, ∀ stn ∈ stations,
        slotStationCount newA s stn.id = 2) := by
  intro L
  induction L with
  | nil =>
    intro st0 g _ _
    refine ⟨[], [], by simp [processSlots], by simp [processSlots], ?_, ?_, ?_, ?_⟩
    · intro x hx; cases hx
    · exact List.Pairwise.nil
    · constructor
      · intro _ s hs; cases hs
      · intro _; rfl
    · intro _ _ s hs; cases hs
  | cons s L' ih =>
    intro st0 g hknd hfresh
    rw [List.map_cons] at hknd
    rcases List.nodup_cons.1 hknd with ⟨hkey, hknd'⟩
    set sh := shuffleArray stations g with hsh
    have hshperm : sh.1.Perm stations := shuffleArray_perm stations g
    have hbknil : bookedIds st0.assignments s = [] := by
      rw [bookedIds, List.map_eq_nil_iff, List.filter_eq_nil_iff]
      intro a ha
      have h1 := hfresh a ha s (List.mem_cons_self s L')
      rw [keyMatches]
      simp only [Bool.and_eq_true, beq_iff_eq, not_and]
      intro hdt h3
      exact h1 ⟨h3, hdt.2⟩
    obtain ⟨nA, nE, hA1, hE1, hprov1, hnd1, hfr1, hiff1, hcnt1⟩ :=
      processStations_spec persons s hper sh.1 st0 sh.2
        (by rw [hbknil]; exact List.nodup_nil)
        (by rw [hbknil]; intro i hi; cases hi)
    have hunfold : processSlots persons stations (s :: L') st0 g
        = processSlots persons stations L'
            (processStations persons s sh.1 st0 sh.2).1
            (processStations persons s sh.1 st0 sh.2).2 := rfl
    have hfresh1 : ∀ a ∈ (processStations persons s sh.1 st0 sh.2).1.assignments,
        ∀ s' ∈ L', ¬(a.date = s'.date ∧ a.timeSlot = s'.time) := by
      rw [hA1]
      intro a ha s' hs'
      rcases List.mem_append.1 ha with h | h
      · exact hfresh a h s' (List.mem_cons_of_mem s hs')
      · obtain ⟨_, _, ht, hd, _, _⟩ := hprov1 a h
        rintro ⟨hd', ht'⟩
        apply hkey
        have : slotKey s = slotKey s' := by
          rw [slotKey, slotKey, ← hd', ← ht', hd, ht]
        exact this ▸ List.mem_map.2 ⟨s', hs', rfl⟩
    obtain ⟨newA, newE, hA2, hE2, hprov2, hpw2, hiff2, hcnt2⟩ :=
      ih (processStations persons s sh.1 st0 sh.2).1
        (processStations persons s sh.1 st0 sh.2).2 hknd' hfresh1
    refine ⟨nA ++ newA, nE ++ newE, ?_, ?_, ?_, ?_, ?_, ?_⟩
    · rw [hunfold, hA2, hA1, List.append_assoc]
    · rw [hunfold, hE2, hE1, List.append_assoc]
    · intro x hx
      rcases List.mem_append.1 hx with h | h
      · obtain ⟨_, hd, ht, hdt, hp, stn, hstn, hsid⟩ := hprov1 x h
        exact ⟨s, List.mem_cons_self s L', hd, ht, hdt, hp,
          ⟨stn, hshperm.mem_iff.1 hstn, hsid⟩⟩
      · obtain ⟨s', hs', rest⟩ := hprov2 x h
        exact ⟨s', List.mem_cons_of_mem s hs', rest⟩
    · apply List.pairwise_append.2
      refine ⟨?_, hpw2, ?_⟩
      · have h1 : (nA.map Assignment.personId).Pairwise (· ≠ ·) := hnd1
        have h2 := (List.pairwise_map).1 h1
        exact h2.imp (fun hne => fun hc => hne hc.1)
      · intro a ha b hb
        obtain ⟨_, _, hta, hda, _, _⟩ := hprov1 a ha
        obtain ⟨s', hs', _, htb, hdb, _⟩ := hprov2 b hb
        rintro ⟨_, hdd, htt⟩
        apply hkey
        have : slotKey s = slotKey s' := by
          rw [slotKey, slotKey, ← hda, ← hta, hdd, htt, hdb, htb]
        exact this ▸ List.mem_map.2 ⟨s', hs', rfl⟩
    · have hiff1' : nE = [] ↔ 2 * stations.length ≤ (slotPool persons s).length := by
        rw [hbknil] at hiff1
        rw [hshperm.length_eq] at hiff1
        simpa using hiff1
      constructor
      · intro hnil s' hs'
        rcases List.append_eq_nil.1 hnil with ⟨hn1, hn2⟩
        rcases List.mem_cons.1 hs' with h | h
        · subst h; exact hiff1'.1 hn1
        · exact (hiff2.1 hn2) s' h
      · intro hall
        rw [hiff1'.2 (hall s (List.mem_cons_self s L')),
          hiff2.2 (fun s' hs' => hall s' (List.mem_cons_of_mem s hs'))]
        rfl
    · intro hndst hnil s' hs' stn hstn
      rcases List.append_eq_nil.1 hnil with ⟨hn1, hn2⟩
      have hndsh : (sh.1.map Station.id).Nodup := (hshperm.map _).symm.nodup hndst
      rcases List.mem_cons.1 hs' with h | h
      · subst h
        rw [slotStationCount, List.filter_append, List.length_append]
        have hpart2 : newA.filter (fun a =>
            a.date == s'.date && a.timeSlot == s'.time && a.stationId == stn.id) = [] := by
          rw [List.filter_eq_nil_iff]
          intro x hx
          obtain ⟨s'', hs'', _, ht, hd, _, _⟩ := hprov2 x hx
          have hne : ¬(x.date = s'.date ∧ x.timeSlot = s'.time) := by
            rintro ⟨hdd, htt⟩
            apply hkey
            have : slotKey s' = slotKey s'' := by
              rw [slotKey, slotKey, ← hdd, ← htt, hd, ht]
            exact this ▸ List.mem_map.2 ⟨s'', hs'', rfl⟩
          simp only [Bool.and_eq_true, beq_iff_eq, not_and]
          intro hdt _
          exact hne hdt
        have hpart1 : nA.filter (fun a =>
            a.date == s'.date && a.timeSlot == s'.time && a.stationId == stn.id)
            = nA.filter (fun a => a.stationId == stn.id) := by
          apply List.filter_congr
          intro x hx
          obtain ⟨_, _, ht, hd, _, _⟩ := hprov1 x hx
          simp [hd, ht]
        rw [hpart1, hpart2, hcnt1 hndsh hn1 stn (hshperm.mem_iff.2 hstn)]
        rfl
      · rw [slotStationCount, List.filter_append, List.length_append]
        have hpart1 : nA.filter (fun a =>
            a.date == s'.date && a.timeSlot == s'.time && a.stationId == stn.id) = [] := by
          rw [List.filter_eq_nil_iff]
          intro x hx
          obtain ⟨_, _, ht, hd, _, _⟩ := hprov1 x hx
          have hne : ¬(x.date = s'.date ∧ x.timeSlot = s'.time) := by
            rintro ⟨hdd, htt⟩
            apply hkey
            have : slotKey s = slotKey s' := by
              rw [slotKey, slotKey, ← hd, ← ht, hdd, htt]
            exact this ▸ List.mem_map.2 ⟨s', h, rfl⟩
          simp only [Bool.and_eq_true, beq_iff_eq, not_and]
          intro hdt _
          exact hne hdt
        have h2 := hcnt2 hndst hn2 s' h stn hstn
        rw [slotStationCount] at h2
        rw [hpart1, h2]
        rfl

/-- Provenance of the station loop without any distinctness hypotheses:
every appended assignment carries the slot's data and references a person
who passes the static eligibility test for the slot. -/
theorem processStations_prov (persons : List Person) (slot : TimeSlot) :
    ∀ (S : List Station) (st0 : PassState) (g : RNG),
    ∃ newA,
      (processStations persons slot S st0 g).1.assignments = st0.assignments ++ newA ∧
      ∀ x ∈ newA, x.dayOfWeek = slot.day ∧ x.timeSlot = slot.time ∧
        x.date = slot.date ∧
        ∃ p ∈ slotPool persons slot, x.personId = p.id := by
  intro S
  induction S with
  | nil =>
    intro st0 g
    exact ⟨[], by simp [processStations], fun x hx => absurd hx (List.not_mem_nil x)⟩
  | cons stn rest ih =>
    intro st0 g
    set fb := findBestPersonsForSlot persons st0.assignments slot stn.id 2 g with hfb
    set ps := fb.1 with hps
    set batch := ps.map (mkAssignment slot stn) with hbatch
    have hpsmem : ∀ p ∈ ps, p ∈ eligibleFor persons st0.assignments slot :=
      findBest_mem persons st0.assignments slot stn.id 2 g
    have hunfold : processStations persons slot (stn :: rest) st0 g
        = processStations persons slot rest
            (if 2 ≤ ps.length then
              { st0 with assignments := st0.assignments ++ batch }
             else if ps.length == 1 then
              { assignments := st0.assignments ++ batch
                errors := st0.errors ++ [onlyOneMsg slot stn] }
             else { st0 with errors := st0.errors ++ [nonePlacedMsg slot stn] })
            fb.2 := rfl
    have hbatchp : ∀ x ∈ batch, x.dayOfWeek = slot.day ∧ x.timeSlot = slot.time ∧
        x.date = slot.date ∧ ∃ p ∈ slotPool persons slot, x.personId = p.id := by
      intro x hx
      rcases List.mem_map.1 hx with ⟨p, hp, rfl⟩
      exact ⟨rfl, rfl, rfl, ⟨p, (mem_eligible_iff.1 (hpsmem p hp)).1, rfl⟩⟩
    rcases Nat.lt_or_ge ps.length 2 with hlt | hge
    · rcases Nat.lt_or_ge ps.length 1 with hlt0 | hge1
      · have h0 : ps.length = 0 := by omega
        have hpsnil : ps = [] := List.length_eq_zero.1 h0
        have hbnil : batch = [] := by rw [hbatch, hpsnil]; rfl
        rw [hunfold, if_neg (by omega), if_neg (by simp [h0])]
        obtain ⟨newA, hA, hp⟩ := ih { st0 with errors := st0.errors ++ [nonePlacedMsg slot stn] } fb.2
        exact ⟨newA, hA, hp⟩
      · have h1 : ps.length = 1 := by omega
        rw [hunfold, if_neg (by omega), if_pos (by simp [h1])]
        obtain ⟨newA, hA, hp⟩ := ih
          ({ assignments := st0.assignments ++ batch
             errors := st0.errors ++ [onlyOneMsg slot stn] } : PassState) fb.2
        refine ⟨batch ++ newA, by rw [hA]; simp [List.append_assoc], ?_⟩
        intro x hx
        rcases List.mem_append.1 hx with h | h
        · exact hbatchp x h
        · exact hp x h
    · rw [hunfold, if_pos hge]
      obtain ⟨newA, hA, hp⟩ := ih { st0 with assignments := st0.assignments ++ batch } fb.2
      refine ⟨batch ++ newA, by rw [hA]; simp [List.append_assoc], ?_⟩
      intro x hx
      rcases List.mem_append.1 hx with h | h
      · exact hbatchp x h
      · exact hp x h

/-- Provenance of the slot loop without hypotheses. -/
theorem processSlots_prov (persons : List Person) (stations : List Station) :
    ∀ (L : List TimeSlot) (st0 : PassState) (g : RNG),
    ∃ newA,
      (processSlots persons stations L st0 g).1.assignments = st0.assignments ++ newA ∧
      ∀ x ∈ newA, ∃ s ∈ L, x.dayOfWeek = s.day ∧ x.timeSlot = s.time ∧
        x.date = s.date ∧ ∃ p ∈ slotPool persons s, x.personId = p.id := by
  intro L
  induction L with
  | nil =>
    intro st0 g
    exact ⟨[], by simp [processSlots], fun x hx => absurd hx (List.not_mem_nil x)⟩
  | cons s L' ih =>
    intro st0 g
    set sh := shuffleArray stations g with hsh
    obtain ⟨nA, hA1, hp1⟩ := processStations_prov persons s sh.1 st0 sh.2
    obtain ⟨newA, hA2, hp2⟩ := ih (processStations persons s sh.1 st0 sh.2).1
      (processStations persons s sh.1 st0 sh.2).2
    refine ⟨nA ++ newA, ?_, ?_⟩
    · have : processSlots persons stations (s :: L') st0 g
          = processSlots persons stations L'
              (processStations persons s sh.1 st0 sh.2).1
              (processStations persons s sh.1 st0 sh.2).2 := rfl
      rw [this, hA2, hA1, List.append_assoc]
    · intro x hx
      rcases List.mem_append.1 hx with h | h
      · obtain ⟨hd, ht, hdt, hp⟩ := hp1 x h
        exact ⟨s, List.mem_cons_self s L', hd, ht, hdt, hp⟩
      · obtain ⟨s', hs', rest⟩ := hp2 x h
        exact ⟨s', List.mem_cons_of_mem s hs', rest⟩

/-- Provenance of a full pass: every produced assignment belongs to one of
the generated slots and references a person eligible for it. -/
theorem runPass_prov (persons : List Person) (stations : List Station)
    (slots : List TimeSlot) (g : RNG) :
    ∀ x ∈ (runPass persons stations slots g).1.assignments,
    ∃ s ∈ slots, x.dayOfWeek = s.day ∧ x.timeSlot = s.time ∧
      x.date = s.date ∧ ∃ p ∈ slotPool persons s, x.personId = p.id := by
  intro x hx
  have hop : (weekOrder (shuffleArray slots g).1).Perm slots :=
    (weekOrder_perm _).trans (shuffleArray_perm slots g)
  obtain ⟨newA, hA, hp⟩ := processSlots_prov persons stations
    (weekOrder (shuffleArray slots g).1) ⟨[], []⟩ (shuffleArray slots g).2
  have hx' : x ∈ ([] : List Assignment) ++ newA := by
    rw [← hA]
    exact hx
  rw [List.nil_append] at hx'
  obtain ⟨s, hs, rest⟩ := hp x hx'
  exact ⟨s, hop.mem_iff.1 hs, rest⟩

/-- Full accounting of one pass under the distinctness hypotheses. -/
theorem runPass_spec (persons : List Person) (stations : List Station)
    (slots : List TimeSlot) (g : RNG)
    (hper : (persons.map Person.id).Nodup)
    (hknd : (slots.map slotKey).Nodup) :
    (runPass persons stations slots g).1.assignments.Pairwise noDouble ∧
    ((runPass persons stations slots g).1.errors = [] ↔
      ∀ s ∈ slots, 2 * stations.length ≤ (slotPool persons s).length) ∧
    ((stations.map Station.id).Nodup →
      (runPass persons stations slots g).1.errors = [] →
      ∀ s ∈ slots, ∀ stn ∈ stations,
        slotStationCount (runPass persons stations slots g).1.assignments s stn.id = 2) := by
  have hop : (weekOrder (shuffleArray slots g).1).Perm slots :=
    (weekOrder_perm _).trans (shuffleArray_perm slots g)
  have hknd' : ((weekOrder (shuffleArray slots g).1).map slotKey).Nodup :=
    ((hop.map slotKey).symm).nodup hknd
  obtain ⟨newA, newE, hA, hE, _, hpw, hiff, hcnt⟩ :=
    processSlots_spec persons stations hper (weekOrder (shuffleArray slots g).1)
      ⟨[], []⟩ (shuffleArray slots g).2 hknd' (fun a ha => absurd ha (List.not_mem_nil a))
  have hA' : (runPass persons stations slots g).1.assignments = newA := by
    rw [runPass]
    rw [hA]
    rfl
  have hE' : (runPass persons stations slots g).1.errors = newE := by
    rw [runPass]
    rw [hE]
    rfl
  refine ⟨by rw [hA']; exact hpw, ?_, ?_⟩
  · rw [hE', hiff]
    constructor
    · intro h s hs
      exact h s (hop.mem_iff.2 hs)
    · intro h s hs
      exact h s (hop.mem_iff.1 hs)
  · intro hnds hnil s hs stn hstn
    rw [hA']
    exact hcnt hnds (by rw [hE'] at hnil; exact hnil) s (hop.mem_iff.2 hs) stn hstn

section FairnessLemmas

theorem mem_min_getD (l : List Nat) (hne : l ≠ []) :
    l.min?.getD 0 ∈ l ∧ ∀ b ∈ l, l.min?.getD 0 ≤ b := by
  cases hm : l.min? with
  | none => exact absurd (List.min?_eq_none_iff.1 hm) hne
  | some m =>
    have h := (List.min?_eq_some_iff (fun a => le_refl a) (fun a b => min_choice a b)
      (fun a b c => le_min_iff)).1 hm
    simpa using h

theorem mem_max_getD (l : List Nat) (hne : l ≠ []) :
    l.max?.getD 0 ∈ l ∧ ∀ b ∈ l, b ≤ l.max?.getD 0 := by
  cases hm : l.max? with
  | none => exact absurd (List.max?_eq_none_iff.1 hm) hne
  | some m =>
    have h := (List.max?_eq_some_iff (fun a => le_refl a) (fun a b => max_choice a b)
      (fun a b c => max_le_iff)).1 hm
    simpa using h

/-- The first branch of the score: empty or all-zero counts give `1`. -/
theorem fairnessScore_one_first (persons : List Person) (assignments : List Assignment)
    (h : ((assignmentCountsOf persons assignments).isEmpty
      || (assignmentCountsOf persons assignments).all (· == 0)) = true) :
    fairnessScore persons assignments = 1 := by
  rw [fairnessScore]
  simp only [h, if_true]

theorem fairnessScore_nil (persons : List Person) :
    fairnessScore persons [] = 1 := by
  apply fairnessScore_one_first
  have hall : (assignmentCountsOf persons []).all (· == 0) = true := by
    rw [List.all_eq_true]
    intro x hx
    rw [assignmentCountsOf, assignmentsPerPersonL, List.map_map] at hx
    rcases List.mem_map.1 hx with ⟨i, _, he⟩
    simp only [Function.comp] at he
    simp [← he]
  rw [hall, Bool.or_true]

/-- The second branch of the score: zero spread gives `1`. -/
theorem fairnessScore_one_of_range_zero (persons : List Person)
    (assignments : List Assignment)
    (h : (assignmentCountsOf persons assignments).max?.getD 0
      = (assignmentCountsOf persons assignments).min?.getD 0) :
    fairnessScore persons assignments = 1 := by
  by_cases hfirst : ((assignmentCountsOf persons assignments).isEmpty
      || (assignmentCountsOf persons assignments).all (· == 0)) = true
  · exact fairnessScore_one_first persons assignments hfirst
  · rw [fairnessScore]
    simp only [hfirst, if_false, Bool.false_eq_true]
    rw [if_pos]
    simp [h]

/-- The third branch of the score: nonzero spread gives the clamped
exponential-decay formula. -/
theorem fairnessScore_of_range_ne (persons : List Person)
    (assignments : List Assignment)
    (h : (assignmentCountsOf persons assignments).max?.getD 0
      ≠ (assignmentCountsOf persons assignments).min?.getD 0) :
    fairnessScore persons assignments
      = max 0 (min 1 (Real.exp
          (-(((assignmentCountsOf persons assignments).map
              (fun cnt => ((cnt : ℝ) - (assignments.length : ℝ) / (persons.length : ℝ))
                * ((cnt : ℝ) - (assignments.length : ℝ) / (persons.length : ℝ)))).sum
            / ((assignmentCountsOf persons assignments).length : ℝ))
          / ((assignments.length : ℝ) / (persons.length : ℝ))))) := by
  have hne : assignmentCountsOf persons assignments ≠ [] := by
    intro hnil
    apply h
    rw [hnil]
    rfl
  have hfirst : ((assignmentCountsOf persons assignments).isEmpty
      || (assignmentCountsOf persons assignments).all (· == 0)) = false := by
    rw [Bool.or_eq_false_iff]
    constructor
    · rw [Bool.eq_false_iff]
      intro he
      exact hne (List.isEmpty_iff.1 he)
    · rw [Bool.eq_false_iff]
      intro hall
      apply h
      have h1 := (mem_min_getD _ hne).1
      have h2 := (mem_max_getD _ hne).1
      have hz := List.all_eq_true.1 hall
      have e1 : (assignmentCountsOf persons assignments).min?.getD 0 = 0 := by
        simpa using hz _ h1
      have e2 : (assignmentCountsOf persons assignments).max?.getD 0 = 0 := by
        simpa using hz _ h2
      rw [e1, e2]
  rw [fairnessScore]
  simp only [hfirst, if_false, Bool.false_eq_true]
  rw [if_neg]
  intro hc
  have hc' : (assignmentCountsOf persons assignments).max?.getD 0
      - (assignmentCountsOf persons assignments).min?.getD 0 = 0 := by
    simpa using hc
  have hle : (assignmentCountsOf persons assignments).min?.getD 0
      ≤ (assignmentCountsOf persons assignments).max?.getD 0 :=
    (mem_max_getD _ hne).2 _ (mem_min_getD _ hne).1
  exact h (by omega)

/-- The score always lies in `[0, 1]`. -/
theorem fairnessScore_bounds (persons : List Person) (assignments : List Assignment) :
    0 ≤ fairnessScore persons assignments ∧ fairnessScore persons assignments ≤ 1 := by
  by_cases h : (assignmentCountsOf persons assignments).max?.getD 0
      = (assignmentCountsOf persons assignments).min?.getD 0
  · rw [fairnessScore_one_of_range_zero persons assignments h]
    norm_num
  · rw [fairnessScore_of_range_ne persons assignments h]
    constructor
    · exact le_max_left 0 _
    · apply max_le (by norm_num)
      exact min_le_left 1 _

theorem goodFairness_of_one {persons : List Person} {assignments : List Assignment}
    (h : fairnessScore persons assignments = 1) :
    goodFairness persons assignments := by
  rw [goodFairness, h]
  norm_num

end FairnessLemmas

section EngineCaseLemmas

theorem generateSchedule_invalid (cs : ScheduleConstraints) (g : RNG)
    (h : validationErrors cs ≠ []) :
    generateSchedule cs g
      = ⟨[], calculateFairnessMetrics cs.persons (cs.stations.filter (fun s => s.active)) [],
          false, validationErrors cs⟩ := by
  rw [generateSchedule]
  rw [if_neg]
  intro he
  exact h (List.isEmpty_iff.1 he)

theorem generateSchedule_valid (cs : ScheduleConstraints) (g : RNG)
    (h : validationErrors cs = []) :
    generateSchedule cs g
      = ⟨(generateOptimizedAssignments cs.persons (cs.stations.filter (fun s => s.active))
            (generateTimeSlots cs.scheduleConfig) g).1,
         calculateFairnessMetrics cs.persons (cs.stations.filter (fun s => s.active))
           (generateOptimizedAssignments cs.persons (cs.stations.filter (fun s => s.active))
             (generateTimeSlots cs.scheduleConfig) g).1,
         (generateOptimizedAssignments cs.persons (cs.stations.filter (fun s => s.active))
             (generateTimeSlots cs.scheduleConfig) g).2.isEmpty,
         (generateOptimizedAssignments cs.persons (cs.stations.filter (fun s => s.active))
             (generateTimeSlots cs.scheduleConfig) g).2⟩ := by
  rw [generateSchedule]
  rw [if_pos]
  rw [h]
  rfl

/-- The four terminal shapes of the retry loop. -/
theorem generateOptimizedAssignments_cases (persons : List Person)
    (stations : List Station) (slots : List TimeSlot) (g : RNG) :
    (goodFairness persons (runPass persons stations slots g).1.assignments ∧
      generateOptimizedAssignments persons stations slots g
        = ((runPass persons stations slots g).1.assignments,
           (runPass persons stations slots g).1.errors)) ∨
    (¬goodFairness persons (runPass persons stations slots g).1.assignments ∧
      goodFairness persons (runPass persons stations slots
        (runPass persons stations slots g).2).1.assignments ∧
      generateOptimizedAssignments persons stations slots g
        = ((runPass persons stations slots (runPass persons stations slots g).2).1.assignments,
           (runPass persons stations slots (runPass persons stations slots g).2).1.errors)) ∨
    (¬goodFairness persons (runPass persons stations slots g).1.assignments ∧
      ¬goodFairness persons (runPass persons stations slots
        (runPass persons stations slots g).2).1.assignments ∧
      goodFairness persons (runPass persons stations slots
        (runPass persons stations slots (runPass persons stations slots g).2).2).1.assignments ∧
      generateOptimizedAssignments persons stations slots g
        = ((runPass persons stations slots
              (runPass persons stations slots (runPass persons stations slots g).2).2).1.assignments,
           (runPass persons stations slots
              (runPass persons stations slots (runPass persons stations slots g).2).2).1.errors)) ∨
    (¬goodFairness persons (runPass persons stations slots g).1.assignments ∧
      ¬goodFairness persons (runPass persons stations slots
        (runPass persons stations slots g).2).1.assignments ∧
      ¬goodFairness persons (runPass persons stations slots
        (runPass persons stations slots (runPass persons stations slots g).2).2).1.assignments ∧
      generateOptimizedAssignments persons stations slots g
        = ((runPass persons stations slots
              (runPass persons stations slots (runPass persons stations slots g).2).2).1.assignments,
           (runPass persons stations slots g).1.errors)) := by
  by_cases h0 : goodFairness persons (runPass persons stations slots g).1.assignments
  · left
    exact ⟨h0, by rw [generateOptimizedAssignments, if_pos h0]⟩
  · by_cases h1 : goodFairness persons (runPass persons stations slots
        (runPass persons stations slots g).2).1.assignments
    · right; left
      exact ⟨h0, h1, by rw [generateOptimizedAssignments, if_neg h0, if_pos h1]⟩
    · by_cases h2 : goodFairness persons (runPass persons stations slots
          (runPass persons stations slots (runPass persons stations slots g).2).2).1.assignments
      · right; right; left
        exact ⟨h0, h1, h2,
          by rw [generateOptimizedAssignments, if_neg h0, if_neg h1, if_pos h2]⟩
      · right; right; right
        exact ⟨h0, h1, h2,
          by rw [generateOptimizedAssignments, if_neg h0, if_neg h1, if_neg h2]⟩

end EngineCaseLemmas

section MetricsHelpers

theorem calculateFairnessMetrics_score (p : List Person) (s : List Station)
    (a : List Assignment) :
    (calculateFairnessMetrics p s a).fairnessScore = fairnessScore p a := by
  rw [calculateFairnessMetrics]
  by_cases h : ((assignmentCountsOf p a).isEmpty
      || (assignmentCountsOf p a).all (· == 0)) = true
  · rw [if_pos h]
  · rw [if_neg h]

end MetricsHelpers

/-- C9: the engine never aborts: the `throw` inside `getDayName` is
unreachable because Sundays are skipped before the day name is computed, so
the `Except`-valued slot generator always succeeds and `generateSchedule`
(a total function built on its successful projection) reports every error
through the result's fields. -/
theorem sunday_throw_unreachable (c : ScheduleConfig) (h : c.startDate ≤ c.endDate) :
    generateTimeSlotsE c = Except.ok (generateTimeSlots c) :=
  generateTimeSlotsE_ok c

theorem sunday_throw_unreachable_witness :
    cfgWeek.startDate ≤ cfgWeek.endDate ∧
    generateTimeSlotsE cfgWeek = Except.ok (generateTimeSlots cfgWeek) :=
  ⟨by decide, sunday_throw_unreachable cfgWeek (by decide)⟩

/-- C3, counterexample: for the range Sunday(day 3)–Monday(day 4) with
`includeStartMorning = false`, the generator emits 2 slots while the
claimed formula `2·nonRestDays − 1` yields 1 — the boundary subtraction
must not apply when the boundary day is the skipped rest day. -/
theorem slot_count_formula_cex :
    ¬((generateTimeSlots ⟨3, 4, false, true⟩).length
      = 2 * nonRestDays ⟨3, 4, false, true⟩
        - (if (⟨3, 4, false, true⟩ : ScheduleConfig).includeStartMorning then 0 else 1)
        - (if (⟨3, 4, false, true⟩ : ScheduleConfig).includeEndEvening then 0 else 1)) := by
  decide

/-- C3, amended: the generated slot count is `2 · nonRestDays` minus one
for each excluded boundary shift whose boundary day is not a Sunday, and no
generated slot falls on a Sunday. -/
theorem slot_count_formula (c : ScheduleConfig) (h : c.startDate ≤ c.endDate) :
    (generateTimeSlots c).length
      = 2 * nonRestDays c
        - (if getDay c.startDate ≠ 0 ∧ c.includeStartMorning = false then 1 else 0)
        - (if getDay c.endDate ≠ 0 ∧ c.includeEndEvening = false then 1 else 0) ∧
    ∀ s ∈ generateTimeSlots c, getDay s.date ≠ 0 := by
  refine ⟨?_, generateTimeSlots_no_sunday c⟩
  have hlen := genSlotsAux_length c (c.endDate + 1 - c.startDate) c.startDate
    (generateTimeSlots c) (generateTimeSlotsE_ok c)
  have e1 : (if c.startDate ≤ c.startDate ∧
        c.startDate < c.startDate + (c.endDate + 1 - c.startDate) ∧
        getDay c.startDate ≠ 0 ∧ c.includeStartMorning = false then 1 else 0)
      = (if getDay c.startDate ≠ 0 ∧ c.includeStartMorning = false then 1 else 0) := by
    refine if_congr ⟨?_, ?_⟩ rfl rfl
    · rintro ⟨-, -, h3, h4⟩
      exact ⟨h3, h4⟩
    · rintro ⟨h3, h4⟩
      exact ⟨le_refl _, by omega, h3, h4⟩
  have e2 : (if c.startDate ≤ c.endDate ∧
        c.endDate < c.startDate + (c.endDate + 1 - c.startDate) ∧
        getDay c.endDate ≠ 0 ∧ c.includeEndEvening = false then 1 else 0)
      = (if getDay c.endDate ≠ 0 ∧ c.includeEndEvening = false then 1 else 0) := by
    refine if_congr ⟨?_, ?_⟩ rfl rfl
    · rintro ⟨-, -, h3, h4⟩
      exact ⟨h3, h4⟩
    · rintro ⟨h3, h4⟩
      exact ⟨h, by omega, h3, h4⟩
  rw [e1, e2] at hlen
  have hN : nonRestDays c
      = (List.range (c.endDate + 1 - c.startDate)).countP
          (fun k => getDay (c.startDate + k) != 0) := rfl
  rw [← hN] at hlen
  omega

theorem slot_count_formula_witness :
    cfgWeek.startDate ≤ cfgWeek.endDate ∧
    ((generateTimeSlots cfgWeek).length
      = 2 * nonRestDays cfgWeek
        - (if getDay cfgWeek.startDate ≠ 0 ∧ cfgWeek.includeStartMorning = false
            then 1 else 0)
        - (if getDay cfgWeek.endDate ≠ 0 ∧ cfgWeek.includeEndEvening = false
            then 1 else 0) ∧
      ∀ s ∈ generateTimeSlots cfgWeek, getDay s.date ≠ 0) :=
  ⟨by decide, slot_count_formula cfgWeek (by decide)⟩

/-- C7: the fairness score is `1` when there are no assignments or when the
per-person counts have zero spread, and otherwise equals
`clamp(exp(-variance/ideal), 0, 1)` with `ideal = total/persons` and
`variance` the mean squared deviation of the counts from `ideal`; in every
case it lies in `[0, 1]`. -/
theorem fairness_score_formula (persons : List Person) (assignments : List Assignment) :
    (assignments = [] → fairnessScore persons assignments = 1) ∧
    ((assignmentCountsOf persons assignments).max?.getD 0
        = (assignmentCountsOf persons assignments).min?.getD 0 →
      fairnessScore persons assignments = 1) ∧
    ((assignmentCountsOf persons assignments).max?.getD 0
        ≠ (assignmentCountsOf persons assignments).min?.getD 0 →
      fairnessScore persons assignments
        = max 0 (min 1 (Real.exp
            (-(((assignmentCountsOf persons assignments).map
                (fun cnt => ((cnt : ℝ)
                  - (assignments.length : ℝ) / (persons.length : ℝ)) ^ 2)).sum
              / ((assignmentCountsOf persons assignments).length : ℝ))
            / ((assignments.length : ℝ) / (persons.length : ℝ)))))) ∧
    0 ≤ fairnessScore persons assignments ∧ fairnessScore persons assignments ≤ 1 := by
  refine ⟨?_, fairnessScore_one_of_range_zero persons assignments, ?_,
    fairnessScore_bounds persons assignments⟩
  · intro h
    subst h
    exact fairnessScore_nil persons
  · intro h
    rw [fairnessScore_of_range_ne persons assignments h]
    simp only [pow_two]

theorem fairness_score_formula_witness :
    fairnessScore [pA] [] = 1 :=
  (fairness_score_formula [pA] []).1 rfl

/-- C8: empty persons, no active station, or exceeded capacity makes
`generateSchedule` fail fast: `success = false`, no assignments, at least
one diagnostic, and (for the zero-person case) a fairness score of `1`. -/
theorem fail_fast_validation (cs : ScheduleConstraints) (g : RNG)
    (h : cs.persons = [] ∨ cs.stations.filter (fun s => s.active) = [] ∨
      cs.persons.length * (generateTimeSlots cs.scheduleConfig).length <
        (generateTimeSlots cs.scheduleConfig).length *
          (cs.stations.filter (fun s => s.active)).length * 2) :
    (generateSchedule cs g).success = false ∧
    (generateSchedule cs g).assignments = [] ∧
    (generateSchedule cs g).errors ≠ [] ∧
    (cs.persons = [] → (generateSchedule cs g).fairnessMetrics.fairnessScore = 1) := by
  have hval : validationErrors cs ≠ [] := by
    intro hnil
    rw [validationErrors] at hnil
    rcases List.append_eq_nil.1 hnil with ⟨h12, h3⟩
    rcases List.append_eq_nil.1 h12 with ⟨h1, h2⟩
    rcases h with h | h | h
    · rw [if_pos (by rw [h]; rfl)] at h1
      cases h1
    · rw [if_pos (by rw [h]; rfl)] at h2
      cases h2
    · rw [if_pos h] at h3
      cases h3
  rw [generateSchedule_invalid cs g hval]
  exact ⟨rfl, rfl, hval, fun _ => by
    rw [calculateFairnessMetrics_score]
    exact fairnessScore_nil cs.persons⟩

theorem fail_fast_validation_witness :
    (generateSchedule ⟨[], [stS1], cfgOneSlot⟩ []).success = false ∧
    (generateSchedule ⟨[], [stS1], cfgOneSlot⟩ []).assignments = [] ∧
    (generateSchedule ⟨[], [stS1], cfgOneSlot⟩ []).errors ≠ [] ∧
    (([] : List Person) = [] →
      (generateSchedule ⟨[], [stS1], cfgOneSlot⟩ []).fairnessMetrics.fairnessScore = 1) :=
  fail_fast_validation ⟨[], [stS1], cfgOneSlot⟩ [] (Or.inl rfl)

/-- C6, counterexample: with eligible candidates scoring 0, 10, 20 and a
target of two, the source takes the single minimal candidate and then draws
from a shuffle of ALL remaining candidates, so the score-20 candidate can be
selected while the score-10 candidate stays unselected — refuting "no
selected person has a strictly greater score than any unselected eligible
candidate". -/
theorem selection_next_best_cex :
    (findBestPersonsForSlot [pA, pB, pC] aPre slotMon "stX" 2 []).1 = [pA, pC] ∧
    pB ∈ eligibleFor [pA, pB, pC] aPre slotMon ∧
    pB ∉ (findBestPersonsForSlot [pA, pB, pC] aPre slotMon "stX" 2 []).1 ∧
    personScore aPre "stX" pB.id < personScore aPre "stX" pC.id := by
  decide

/-- C6, amended: `findBestPersonsForSlot` returns at most `targetCount`
persons, all eligible, none when nobody is eligible; when the minimal-score
group (under the score `10·total + 5·station`) has at least `targetCount`
members the selection is drawn entirely from that group, and otherwise the
whole minimal-score group is selected, topped up by candidates drawn after
random shuffling from ALL remaining eligible candidates regardless of their
score. -/
theorem selection_spec (persons : List Person) (assignments : List Assignment)
    (t : TimeSlot) (sid : String) (cnt : Nat) (g : RNG) :
    (findBestPersonsForSlot persons assignments t sid cnt g).1.length ≤ cnt ∧
    (∀ p ∈ (findBestPersonsForSlot persons assignments t sid cnt g).1,
      p ∈ eligibleFor persons assignments t) ∧
    (eligibleFor persons assignments t = [] →
      (findBestPersonsForSlot persons assignments t sid cnt g).1 = []) ∧
    (cnt ≤ (bestGroup persons assignments t sid).length →
      ∀ p ∈ (findBestPersonsForSlot persons assignments t sid cnt g).1,
      ∀ q ∈ eligibleFor persons assignments t,
        personScore assignments sid p.id ≤ personScore assignments sid q.id) ∧
    ((bestGroup persons assignments t sid).length < cnt →
      ∀ p ∈ bestGroup persons assignments t sid,
        p ∈ (findBestPersonsForSlot persons assignments t sid cnt g).1) := by
  refine ⟨?_, findBest_mem persons assignments t sid cnt g, ?_,
    findBest_min_sel persons assignments t sid cnt g,
    findBest_group_sub persons assignments t sid cnt g⟩
  · rw [findBest_length]
    omega
  · intro hE
    have hlen := findBest_length persons assignments t sid cnt g
    rw [hE] at hlen
    simp only [List.length_nil, Nat.min_zero] at hlen
    exact List.length_eq_zero.1 hlen

theorem selection_spec_witness :
    (findBestPersonsForSlot [pA, pB, pC] aPre slotMon "stX" 1 [5, 3]).1.length ≤ 1 ∧
    (∀ p ∈ (findBestPersonsForSlot [pA, pB, pC] aPre slotMon "stX" 1 [5, 3]).1,
      p ∈ eligibleFor [pA, pB, pC] aPre slotMon) ∧
    (eligibleFor [pA, pB, pC] aPre slotMon = [] →
      (findBestPersonsForSlot [pA, pB, pC] aPre slotMon "stX" 1 [5, 3]).1 = []) ∧
    (1 ≤ (bestGroup [pA, pB, pC] aPre slotMon "stX").length →
      ∀ p ∈ (findBestPersonsForSlot [pA, pB, pC] aPre slotMon "stX" 1 [5, 3]).1,
      ∀ q ∈ eligibleFor [pA, pB, pC] aPre slotMon,
        personScore aPre "stX" p.id ≤ personScore aPre "stX" q.id) ∧
    ((bestGroup [pA, pB, pC] aPre slotMon "stX").length < 1 →
      ∀ p ∈ bestGroup [pA, pB, pC] aPre slotMon "stX",
        p ∈ (findBestPersonsForSlot [pA, pB, pC] aPre slotMon "stX" 1 [5, 3]).1) :=
  selection_spec [pA, pB, pC] aPre slotMon "stX" 1 [5, 3]

/-- C2, counterexample: the input is exactly the claim's scenario — one
person without exclusions or date lists, one active station, a
configuration yielding exactly one slot — yet the run trips the capacity
validation (`2 > 1` before any assignment is attempted) and returns an
EMPTY assignment list whose single diagnostic is the capacity message, not
the claimed single assignment with the "only one person available"
partial-staffing message. -/
theorem one_person_scenario_cex :
    pA.excludeMorningShifts = false ∧ pA.excludeEveningShifts = false ∧
    pA.availableDates = none ∧ pA.unavailableDates = none ∧
    stS1.active = true ∧
    generateTimeSlots cfgOneSlot = [slotMon] ∧
    (generateSchedule ⟨[pA], [stS1], cfgOneSlot⟩ []).success = false ∧
    (generateSchedule ⟨[pA], [stS1], cfgOneSlot⟩ []).assignments = [] ∧
    (generateSchedule ⟨[pA], [stS1], cfgOneSlot⟩ []).errors = [capacityMsg 2 1] ∧
    ¬((generateSchedule ⟨[pA], [stS1], cfgOneSlot⟩ []).assignments.length = 1) ∧
    onlyOneMsg slotMon stS1 ∉ (generateSchedule ⟨[pA], [stS1], cfgOneSlot⟩ []).errors := by
  rw [generateSchedule_invalid ⟨[pA], [stS1], cfgOneSlot⟩ [] (by decide)]
  decide

/-- C2, amended: for 1 person, 1 active station and a config yielding
exactly 1 slot, `generateSchedule` returns `success = false`, an EMPTY
assignment list, and exactly one diagnostic — the capacity message
(needed 2, possible 1) — because the capacity check fails fast before any
assignment is attempted. -/
theorem one_person_scenario (p : Person) (st : Station) (c : ScheduleConfig) (g : RNG)
    (hst : st.active = true)
    (hslots : (generateTimeSlots c).length = 1) :
    (generateSchedule ⟨[p], [st], c⟩ g).success = false ∧
    (generateSchedule ⟨[p], [st], c⟩ g).assignments = [] ∧
    (generateSchedule ⟨[p], [st], c⟩ g).errors = [capacityMsg 2 1] := by
  have hfilter : ([st].filter (fun s => s.active)) = [st] := by
    rw [List.filter_cons_of_pos (by rw [hst])]
    rfl
  have hval : validationErrors ⟨[p], [st], c⟩ = [capacityMsg 2 1] := by
    rw [validationErrors]
    simp [hfilter, hslots]
  rw [generateSchedule_invalid ⟨[p], [st], c⟩ g (by rw [hval]; simp)]
  exact ⟨rfl, rfl, hval⟩

theorem one_person_scenario_witness :
    stS1.active = true ∧
    ((generateSchedule ⟨[pA], [stS1], cfgOneSlot⟩ []).success = false ∧
      (generateSchedule ⟨[pA], [stS1], cfgOneSlot⟩ []).assignments = [] ∧
      (generateSchedule ⟨[pA], [stS1], cfgOneSlot⟩ []).errors = [capacityMsg 2 1]) :=
  ⟨by decide, one_person_scenario pA stS1 cfgOneSlot [] (by decide) (by decide)⟩

section EligibilityElim

theorem canPersonWorkSlot_elim {p : Person} {s : TimeSlot}
    (h : canPersonWorkSlot p s = true) :
    (s.time = ShiftTime.Morning → p.excludeMorningShifts = false) ∧
    (s.time = ShiftTime.Evening → p.excludeEveningShifts = false) ∧
    (∀ l, p.availableDates = some l → l ≠ [] → s.date ∈ l) ∧
    (∀ l, p.unavailableDates = some l → l ≠ [] → s.date ∉ l) := by
  rw [canPersonWorkSlot] at h
  simp only [Bool.and_eq_true] at h
  obtain ⟨⟨⟨h1, h2⟩, h3⟩, h4⟩ := h
  refine ⟨?_, ?_, ?_, ?_⟩
  · intro hm
    rw [Bool.not_eq_true', Bool.and_eq_false_iff] at h1
    rcases h1 with h1 | h1
    · rw [hm] at h1
      simp at h1
    · exact h1
  · intro hm
    rw [Bool.not_eq_true', Bool.and_eq_false_iff] at h2
    rcases h2 with h2 | h2
    · rw [hm] at h2
      simp at h2
    · exact h2
  · intro l hl hlne
    rw [hl] at h3
    rcases (by simpa using h3 : l.isEmpty = true ∨ l.contains s.date = true) with h | h
    · exact absurd (List.isEmpty_iff.1 h) hlne
    · exact List.elem_iff.1 h
  · intro l hl hlne hmem
    rw [hl] at h4
    rcases (by simpa using h4 : l.isEmpty = true ∨ (l.contains s.date) = false) with h | h
    · exact hlne (List.isEmpty_iff.1 h)
    · rw [← @List.elem_iff ℕ _ _ s.date l] at hmem
      have h' : List.elem s.date l = false := h
      rw [h'] at hmem
      cases hmem

theorem generateSchedule_valid_fields (cs : ScheduleConstraints) (g : RNG)
    (h : validationErrors cs = []) :
    (generateSchedule cs g).assignments
        = (generateOptimizedAssignments cs.persons (cs.stations.filter (fun s => s.active))
            (generateTimeSlots cs.scheduleConfig) g).1 ∧
    (generateSchedule cs g).errors
        = (generateOptimizedAssignments cs.persons (cs.stations.filter (fun s => s.active))
            (generateTimeSlots cs.scheduleConfig) g).2 ∧
    (generateSchedule cs g).success
        = (generateOptimizedAssignments cs.persons (cs.stations.filter (fun s => s.active))
            (generateTimeSlots cs.scheduleConfig) g).2.isEmpty ∧
    (generateSchedule cs g).fairnessMetrics
        = calculateFairnessMetrics cs.persons (cs.stations.filter (fun s => s.active))
            (generateOptimizedAssignments cs.persons (cs.stations.filter (fun s => s.active))
              (generateTimeSlots cs.scheduleConfig) g).1 := by
  rw [generateSchedule_valid cs g h]
  exact ⟨rfl, rfl, rfl, rfl⟩

end EligibilityElim

/-- C5: every assignment returned by `generateSchedule` references a person
eligible for its slot: the shift-type exclusion flag is off, a present
non-empty allow-list contains the date, and a present non-empty deny-list
does not. -/
theorem assignments_respect_eligibility (cs : ScheduleConstraints) (g : RNG) :
    (generateSchedule cs g).assignments.Forall (fun a =>
      ∃ p ∈ cs.persons, p.id = a.personId ∧
        (a.timeSlot = ShiftTime.Morning → p.excludeMorningShifts = false) ∧
        (a.timeSlot = ShiftTime.Evening → p.excludeEveningShifts = false) ∧
        (∀ l, p.availableDates = some l → l ≠ [] → a.date ∈ l) ∧
        (∀ l, p.unavailableDates = some l → l ≠ [] → a.date ∉ l)) := by
  rw [List.forall_iff_forall_mem]
  intro a ha
  by_cases hval : validationErrors cs = []
  · rw [(generateSchedule_valid_fields cs g hval).1] at ha
    have hmem : ∃ s ∈ generateTimeSlots cs.scheduleConfig,
        a.dayOfWeek = s.day ∧ a.timeSlot = s.time ∧ a.date = s.date ∧
        ∃ p ∈ slotPool cs.persons s, a.personId = p.id := by
      rcases generateOptimizedAssignments_cases cs.persons
          (cs.stations.filter (fun s => s.active)) (generateTimeSlots cs.scheduleConfig) g with
        ⟨_, he⟩ | ⟨_, _, he⟩ | ⟨_, _, _, he⟩ | ⟨_, _, _, he⟩ <;>
        rw [he] at ha <;> exact runPass_prov _ _ _ _ a ha
    obtain ⟨s, _, _, ht, hdt, p, hp, hpid⟩ := hmem
    rcases List.mem_filter.1 hp with ⟨hpers, hcw⟩
    obtain ⟨e1, e2, e3, e4⟩ := canPersonWorkSlot_elim hcw
    refine ⟨p, hpers, hpid.symm, ?_, ?_, ?_, ?_⟩
    · intro hm
      exact e1 (by rw [← ht, hm])
    · intro hm
      exact e2 (by rw [← ht, hm])
    · intro l hl hlne
      rw [hdt]
      exact e3 l hl hlne
    · intro l hl hlne
      rw [hdt]
      exact e4 l hl hlne
  · rw [generateSchedule_invalid cs g hval] at ha
    exact absurd ha (List.not_mem_nil a)

/-- C4: with pairwise-distinct person ids, no person id appears in two
distinct returned assignments sharing one `(date, shift)` pair. -/
theorem no_double_booking (cs : ScheduleConstraints) (g : RNG)
    (hper : (cs.persons.map Person.id).Nodup) :
    (generateSchedule cs g).assignments.Pairwise noDouble := by
  by_cases hval : validationErrors cs = []
  · rw [(generateSchedule_valid_fields cs g hval).1]
    have hknd := generateTimeSlots_keys_nodup cs.scheduleConfig
    rcases generateOptimizedAssignments_cases cs.persons
        (cs.stations.filter (fun s => s.active)) (generateTimeSlots cs.scheduleConfig) g with
      ⟨_, he⟩ | ⟨_, _, he⟩ | ⟨_, _, _, he⟩ | ⟨_, _, _, he⟩ <;>
      rw [he] <;>
      exact (runPass_spec cs.persons (cs.stations.filter (fun s => s.active))
        (generateTimeSlots cs.scheduleConfig) _ hper hknd).1
  · rw [generateSchedule_invalid cs g hval]
    exact List.Pairwise.nil

theorem no_double_booking_witness :
    (generateSchedule ⟨[pA, pB, pC, pD], [stS1], cfgOneSlot⟩ [7, 2, 5]).assignments.Pairwise
      noDouble :=
  no_double_booking ⟨[pA, pB, pC, pD], [stS1], cfgOneSlot⟩ [7, 2, 5] (by decide)

/-- C10: with at least one person and one active station but an empty slot
sequence, the run succeeds vacuously: no assignments, no diagnostics, and a
fairness score of `1`. -/
theorem empty_slots_success (cs : ScheduleConstraints) (g : RNG)
    (hslots : generateTimeSlots cs.scheduleConfig = [])
    (hpers : cs.persons ≠ [])
    (hstats : cs.stations.filter (fun s => s.active) ≠ []) :
    (generateSchedule cs g).success = true ∧
    (generateSchedule cs g).assignments = [] ∧
    (generateSchedule cs g).errors = [] ∧
    (generateSchedule cs g).fairnessMetrics.fairnessScore = 1 := by
  have h1 : (cs.persons.length == 0) = false := by
    rw [Bool.eq_false_iff]
    intro hb
    exact hpers (List.length_eq_zero.1 (by simpa using hb))
  have h2 : ((cs.stations.filter (fun s => s.active)).length == 0) = false := by
    rw [Bool.eq_false_iff]
    intro hb
    exact hstats (List.length_eq_zero.1 (by simpa using hb))
  have hval : validationErrors cs = [] := by
    rw [validationErrors, hslots, h1, h2]
    simp
  obtain ⟨hfa, hfe, hfs, hfm⟩ := generateSchedule_valid_fields cs g hval
  have hrp : ∀ g' : RNG, runPass cs.persons (cs.stations.filter (fun s => s.active))
      (generateTimeSlots cs.scheduleConfig) g' = (⟨[], []⟩, g') := by
    intro g'
    rw [hslots]
    rfl
  have hgood : goodFairness cs.persons (runPass cs.persons
      (cs.stations.filter (fun s => s.active))
      (generateTimeSlots cs.scheduleConfig) g).1.assignments := by
    rw [hrp g]
    exact goodFairness_of_one (fairnessScore_nil _)
  have hgoa : (generateOptimizedAssignments cs.persons
      (cs.stations.filter (fun s => s.active))
      (generateTimeSlots cs.scheduleConfig) g) = ([], []) := by
    rcases generateOptimizedAssignments_cases cs.persons
        (cs.stations.filter (fun s => s.active)) (generateTimeSlots cs.scheduleConfig) g with
      ⟨_, he⟩ | ⟨hbad, _, _⟩ | ⟨hbad, _, _, _⟩ | ⟨hbad, _, _, _⟩
    · rw [he, hrp g]
    · exact absurd hgood hbad
    · exact absurd hgood hbad
    · exact absurd hgood hbad
  refine ⟨?_, ?_, ?_, ?_⟩
  · rw [hfs, hgoa]
    rfl
  · rw [hfa, hgoa]
  · rw [hfe, hgoa]
  · rw [hfm, hgoa, calculateFairnessMetrics_score]
    exact fairnessScore_nil cs.persons

theorem empty_slots_success_witness :
    generateTimeSlots cfgNoSlots = [] ∧
    ((generateSchedule ⟨[pA], [stS1], cfgNoSlots⟩ [3]).success = true ∧
      (generateSchedule ⟨[pA], [stS1], cfgNoSlots⟩ [3]).assignments = [] ∧
      (generateSchedule ⟨[pA], [stS1], cfgNoSlots⟩ [3]).errors = [] ∧
      (generateSchedule ⟨[pA], [stS1], cfgNoSlots⟩ [3]).fairnessMetrics.fairnessScore = 1) :=
  ⟨by decide, empty_slots_success ⟨[pA], [stS1], cfgNoSlots⟩ [3] (by decide)
    (by decide) (by decide)⟩

/-- C1, counterexample: with two ACTIVE stations sharing one id, a fully
staffed run returns `success = true` while the generated slot carries FOUR
assignments for that station id — "exactly 2 assignments per active
station" fails for inputs with duplicated ids. -/
theorem success_two_per_station_cex :
    (generateSchedule ⟨[pA, pB, pC, pD], [stDup1, stDup2], cfgOneSlot⟩ []).success = true ∧
    slotMon ∈ generateTimeSlots cfgOneSlot ∧
    stDup1 ∈ [stDup1, stDup2].filter (fun s => s.active) ∧
    slotStationCount
      (generateSchedule ⟨[pA, pB, pC, pD], [stDup1, stDup2], cfgOneSlot⟩ []).assignments
      slotMon stDup1.id ≠ 2 := by
  have hval : validationErrors ⟨[pA, pB, pC, pD], [stDup1, stDup2], cfgOneSlot⟩ = [] := by
    decide
  obtain ⟨hfa, hfe, hfs, _⟩ :=
    generateSchedule_valid_fields ⟨[pA, pB, pC, pD], [stDup1, stDup2], cfgOneSlot⟩ [] hval
  have hrp : runPass [pA, pB, pC, pD] ([stDup1, stDup2].filter (fun s => s.active))
      (generateTimeSlots cfgOneSlot) [] = (⟨a0Dup, []⟩, []) := by
    decide
  have hgood : goodFairness [pA, pB, pC, pD]
      (runPass [pA, pB, pC, pD] ([stDup1, stDup2].filter (fun s => s.active))
        (generateTimeSlots cfgOneSlot) []).1.assignments := by
    rw [hrp]
    exact goodFairness_of_one (fairnessScore_one_of_range_zero _ _ (by decide))
  have hgoa : generateOptimizedAssignments [pA, pB, pC, pD]
      ([stDup1, stDup2].filter (fun s => s.active))
      (generateTimeSlots cfgOneSlot) [] = (a0Dup, []) := by
    rcases generateOptimizedAssignments_cases [pA, pB, pC, pD]
        ([stDup1, stDup2].filter (fun s => s.active))
        (generateTimeSlots cfgOneSlot) [] with
      ⟨_, he⟩ | ⟨hbad, _, _⟩ | ⟨hbad, _, _, _⟩ | ⟨hbad, _, _, _⟩
    · rw [he, hrp]
    · exact absurd hgood hbad
    · exact absurd hgood hbad
    · exact absurd hgood hbad
  refine ⟨?_, by decide, by decide, ?_⟩
  · rw [hfs, hgoa]
    rfl
  · rw [hfa, hgoa]
    decide

/-- C1, amended: provided the person ids AND the active-station ids are
pairwise distinct, `success = true` implies an empty diagnostics list and
exactly 2 assignments per generated slot and active station, and whenever
some (slot, station) pair of the returned assignments is staffed with fewer
than 2 persons, `success = false`. -/
theorem success_two_per_station (cs : ScheduleConstraints) (g : RNG)
    (hper : (cs.persons.map Person.id).Nodup)
    (hst : ((cs.stations.filter (fun s => s.active)).map Station.id).Nodup) :
    ((generateSchedule cs g).success = true → (generateSchedule cs g).errors = []) ∧
    ((generateSchedule cs g).success = true →
      ∀ s ∈ generateTimeSlots cs.scheduleConfig,
      ∀ stn ∈ cs.stations.filter (fun s => s.active),
        slotStationCount (generateSchedule cs g).assignments s stn.id = 2) ∧
    ((∃ s ∈ generateTimeSlots cs.scheduleConfig,
      ∃ stn ∈ cs.stations.filter (fun s => s.active),
        slotStationCount (generateSchedule cs g).assignments s stn.id < 2) →
      (generateSchedule cs g).success = false) := by
  by_cases hval : validationErrors cs = []
  · obtain ⟨hfa, hfe, hfs, _⟩ := generateSchedule_valid_fields cs g hval
    have hknd := generateTimeSlots_keys_nodup cs.scheduleConfig
    have hcnt2 : (generateSchedule cs g).success = true →
        ∀ s ∈ generateTimeSlots cs.scheduleConfig,
        ∀ stn ∈ cs.stations.filter (fun s => s.active),
          slotStationCount (generateSchedule cs g).assignments s stn.id = 2 := by
      intro hsucc s hs stn hstn
      rw [hfs] at hsucc
      rw [hfa]
      rcases generateOptimizedAssignments_cases cs.persons
          (cs.stations.filter (fun s => s.active)) (generateTimeSlots cs.scheduleConfig) g with
        ⟨_, he⟩ | ⟨_, _, he⟩ | ⟨_, _, _, he⟩ | ⟨_, _, _, he⟩
      · rw [he] at hsucc ⊢
        exact (runPass_spec cs.persons _ _ _ hper hknd).2.2 hst
          (List.isEmpty_iff.1 hsucc) s hs stn hstn
      · rw [he] at hsucc ⊢
        exact (runPass_spec cs.persons _ _ _ hper hknd).2.2 hst
          (List.isEmpty_iff.1 hsucc) s hs stn hstn
      · rw [he] at hsucc ⊢
        exact (runPass_spec cs.persons _ _ _ hper hknd).2.2 hst
          (List.isEmpty_iff.1 hsucc) s hs stn hstn
      · rw [he] at hsucc ⊢
        have h0 := (runPass_spec cs.persons (cs.stations.filter (fun s => s.active))
          (generateTimeSlots cs.scheduleConfig) g hper hknd).2.1
        have hcap := h0.1 (List.isEmpty_iff.1 hsucc)
        have h2 := (runPass_spec cs.persons (cs.stations.filter (fun s => s.active))
          (generateTimeSlots cs.scheduleConfig)
          (runPass cs.persons (cs.stations.filter (fun s => s.active))
            (generateTimeSlots cs.scheduleConfig)
            (runPass cs.persons (cs.stations.filter (fun s => s.active))
              (generateTimeSlots cs.scheduleConfig) g).2).2 hper hknd)
        exact h2.2.2 hst (h2.2.1.2 hcap) s hs stn hstn
    refine ⟨?_, hcnt2, ?_⟩
    · intro hsucc
      rw [hfs] at hsucc
      rw [hfe]
      exact List.isEmpty_iff.1 hsucc
    · intro ⟨s, hs, stn, hstn, hlt⟩
      cases hsucc : (generateSchedule cs g).success with
      | false => rfl
      | true =>
        have := hcnt2 hsucc s hs stn hstn
        omega
  · have hres := generateSchedule_invalid cs g hval
    refine ⟨?_, ?_, ?_⟩
    · intro hsucc
      rw [hres] at hsucc
      cases hsucc
    · intro hsucc
      rw [hres] at hsucc
      cases hsucc
    · intro _
      rw [hres]

theorem success_two_per_station_witness :
    (([pA, pB, pC, pD].map Person.id).Nodup ∧
      (([stS1].filter (fun s => s.active)).map Station.id).Nodup) ∧
    (((generateSchedule ⟨[pA, pB, pC, pD], [stS1], cfgOneSlot⟩ [1, 4]).success = true →
        (generateSchedule ⟨[pA, pB, pC, pD], [stS1], cfgOneSlot⟩ [1, 4]).errors = []) ∧
      ((generateSchedule ⟨[pA, pB, pC, pD], [stS1], cfgOneSlot⟩ [1, 4]).success = true →
        ∀ s ∈ generateTimeSlots cfgOneSlot,
        ∀ stn ∈ [stS1].filter (fun s => s.active),
          slotStationCount
            (generateSchedule ⟨[pA, pB, pC, pD], [stS1], cfgOneSlot⟩ [1, 4]).assignments
            s stn.id = 2) ∧
      ((∃ s ∈ generateTimeSlots cfgOneSlot,
        ∃ stn ∈ [stS1].filter (fun s => s.active),
          slotStationCount
            (generateSchedule ⟨[pA, pB, pC, pD], [stS1], cfgOneSlot⟩ [1, 4]).assignments
            s stn.id < 2) →
        (generateSchedule ⟨[pA, pB, pC, pD], [stS1], cfgOneSlot⟩ [1, 4]).success = false)) :=
  ⟨⟨by decide, by decide⟩,
    success_two_per_station ⟨[pA, pB, pC, pD], [stS1], cfgOneSlot⟩ [1, 4]
      (by decide) (by decide)⟩
